import Mathlib

/-!
Verification of the process/memory simulation engine in `script.js`.

The development shallowly embeds the algorithmic core of the source file:
the `MemoryManager` class (first-fit allocation, free with coalescing),
the global simulation state, and the tick engine with its sub-phases
(`tick`, `schedule`, `freeMemoryAndAwaken`, `processMemoryQueue`,
`terminateProcess`, `createManualProcess`).

JavaScript features are modelled as follows: a `Map` is an association
list with unique keys kept in insertion order (`mapGet`, `mapSet`,
`mapDelete`); `Array.prototype.sort` with the comparator
`(a, b) => a[0] - b[0]` is a stable sort by first component
(embedded as a stable insertion sort, which computes the same list as
any stable sort by the same key); code paths that throw a `TypeError` at
runtime (for example calling the nonexistent method
`memoryManager.alloc`, or reading a property of `undefined`) are
embedded in `Except String`, returning `Except.error` with the message
the engine would throw.
-/

/-- A memory block `(start, size)`, as stored in the free list and the
allocation map of `MemoryManager`. -/
abbrev Block := Nat × Nat

/-- JS `Map.get`: first value bound to `k`, mirroring a JS `Map` read. -/
def mapGet {β : Type} (k : Nat) : List (Nat × β) → Option β
  | [] => none
  | (k', v) :: rest => if k' = k then some v else mapGet k rest

/-- JS `Map.set`: replace the binding of `k` in place, or append a new
binding, mirroring JS `Map` insertion-order semantics. -/
def mapSet {β : Type} (k : Nat) (v : β) : List (Nat × β) → List (Nat × β)
  | [] => [(k, v)]
  | (k', v') :: rest => if k' = k then (k, v) :: rest else (k', v') :: mapSet k v rest

/-- JS `Map.delete`: remove the binding of `k` (a JS `Map` holds at most
one binding per key). -/
def mapDelete {β : Type} (k : Nat) : List (Nat × β) → List (Nat × β)
  | [] => []
  | (k', v) :: rest => if k' = k then rest else (k', v) :: mapDelete k rest

/-- State of the `MemoryManager` class of `script.js`: total capacity,
free list of `(start, size)` intervals, and allocation map
`pid -> (start, size)`. -/
structure MemoryManager where
  total : Nat
  free : List Block
  allocs : List (Nat × Block)
deriving DecidableEq, Repr

/-- Constructor `new MemoryManager(total)`: one free interval spanning the whole
capacity, no allocations. -/
def MemoryManager.make (total : Nat) : MemoryManager :=
  { total := total, free := [(0, total)], allocs := [] }

/-- The scan loop of `MemoryManager.firstFitAllocate`: walk the free
list; at the first interval with `sz >= size` carve the block
`(start, size)`, removing the interval on an exact fit and shrinking it
from the front otherwise.  Returns the block and the updated free
list, or `none` when no interval is large enough. -/
def ffaScan (size : Nat) : List Block → Option (Block × List Block)
  | [] => none
  | (start, sz) :: rest =>
    if size ≤ sz then
      if sz = size then
        some ((start, size), rest)
      else
        some ((start, size), (start + size, sz - size) :: rest)
    else
      match ffaScan size rest with
      | none => none
      | some (blk, rest') => some (blk, (start, sz) :: rest')

/-- Method `MemoryManager.firstFitAllocate(pid, size)`: first-fit scan of the
free list; on success record the block in the allocation map and return
it, on failure return `null` leaving the state untouched. -/
def MemoryManager.firstFitAllocate (mm : MemoryManager) (pid size : Nat) :
    Option Block × MemoryManager :=
  match ffaScan size mm.free with
  | none => (none, mm)
  | some (blk, free') =>
    (some blk, { mm with free := free', allocs := mapSet pid blk mm.allocs })

/-- Stable insertion of a block into a list sorted by start address:
the block goes in front of the first element whose start is not
smaller.  Elements already in the list appeared later in the original
input, so this reproduces the stable order of the JS sort. -/
def insertByStart (x : Block) : List Block → List Block
  | [] => [x]
  | y :: l => if x.1 ≤ y.1 then x :: y :: l else y :: insertByStart x l

/-- The call `this.free.sort((a, b) => a[0] - b[0])`: stable sort of the free
list by start address. -/
def sortFree : List Block → List Block
  | [] => []
  | x :: l => insertByStart x (sortFree l)

/-- The merge loop of `MemoryManager.freeAlloc`: fold over the sorted
free list, merging each interval into the accumulated last one when
`lastS + lastSz === s`. -/
def mergeRun (acc : Block) : List Block → List Block
  | [] => [acc]
  | (s, sz) :: rest =>
    if acc.1 + acc.2 = s then mergeRun (acc.1, acc.2 + sz) rest
    else acc :: mergeRun (s, sz) rest

/-- The `merged` accumulation of `MemoryManager.freeAlloc` over the whole
(sorted) free list. -/
def mergeFree : List Block → List Block
  | [] => []
  | b :: rest => mergeRun b rest

/-- Method `MemoryManager.freeAlloc(pid)`: return unchanged when `pid` has no
allocation; otherwise delete the allocation, push its block onto the
free list, sort by start and merge adjacent intervals. -/
def MemoryManager.freeAlloc (mm : MemoryManager) (pid : Nat) : MemoryManager :=
  match mapGet pid mm.allocs with
  | none => mm
  | some blk =>
    { mm with
      allocs := mapDelete pid mm.allocs
      free := mergeFree (sortFree (mm.free ++ [blk])) }

/-- Method `MemoryManager.freeSpace()`: sum of the free interval sizes. -/
def MemoryManager.freeSpace (mm : MemoryManager) : Nat :=
  (mm.free.map (·.2)).sum

/-- The list of allocated blocks (the values of the allocation map), in
insertion order. -/
def MemoryManager.allocBlocks (mm : MemoryManager) : List Block :=
  mm.allocs.map (·.2)

/-- Sum of the allocated block sizes. -/
def MemoryManager.allocSum (mm : MemoryManager) : Nat :=
  (mm.allocBlocks.map (·.2)).sum

/-- The multiset of addresses covered by a block: `[start, start+size)`. -/
def region (b : Block) : Multiset Nat :=
  (Multiset.range b.2).map (b.1 + ·)

/-- The multiset of addresses covered by a list of blocks. -/
def regions (l : List Block) : Multiset Nat :=
  (l.map region).sum

/-- The multiset of all addresses covered by the free list and the
allocation map of a manager. -/
def MemoryManager.footprint (mm : MemoryManager) : Multiset Nat :=
  regions (mm.free ++ mm.allocBlocks)

/-- One external call to the allocator, for stating properties of call
sequences. -/
inductive MMOp where
  | alloc (pid size : Nat)
  | free (pid : Nat)
deriving DecidableEq, Repr

/-- Apply one allocator call. -/
def applyOp (mm : MemoryManager) : MMOp → MemoryManager
  | .alloc pid size => (mm.firstFitAllocate pid size).2
  | .free pid => mm.freeAlloc pid

/-- Apply a sequence of allocator calls in order. -/
def runOps (mm : MemoryManager) : List MMOp → MemoryManager
  | [] => mm
  | op :: rest => runOps (applyOp mm op) rest

/-- Returns `true` when every `alloc` call in the sequence uses a pid that has
no current allocation at the moment of the call. -/
def freshSeq (mm : MemoryManager) : List MMOp → Bool
  | [] => true
  | op :: rest =>
    (match op with
     | .alloc pid _ => (mapGet pid mm.allocs).isNone
     | .free _ => true) && freshSeq (applyOp mm op) rest

/-- Returns `true` when every `alloc` call in the sequence requests a positive
size. -/
def posSizes : List MMOp → Bool
  | [] => true
  | .alloc _ size :: rest => decide (0 < size) && posSizes rest
  | .free _ :: rest => posSizes rest

/-- The free list is sorted by start address. -/
def SortedByStart (l : List Block) : Prop :=
  l.Pairwise (fun a b => a.1 ≤ b.1)

/-- No two distinct free intervals are adjacent: for no pair does
`start_i + size_i = start_j`. -/
def NoAdjacent (l : List Block) : Prop :=
  l.Pairwise (fun a b => a.1 + a.2 ≠ b.1 ∧ b.1 + b.2 ≠ a.1)

/-- The blocks of a list cover pairwise disjoint address regions. -/
def RegionsDisjoint (l : List Block) : Prop :=
  l.Pairwise (fun a b => Disjoint (region a) (region b))

/-- Every block of the list covers consecutive addresses strictly
before the next one starts (sorted, disjoint and fully coalesced). -/
def FreeChain (l : List Block) : Prop :=
  l.Pairwise (fun a b => a.1 + a.2 < b.1)

/-- Every block of the list has a positive size. -/
def PosBlocks (l : List Block) : Prop :=
  ∀ b ∈ l, 0 < b.2

/-- The structural invariant a reachable manager satisfies when every
allocation request has a positive size: no address is covered twice,
the free list is a strictly separated chain, free intervals are
positive (except for the degenerate zero-capacity manager, which never
changes), and allocated blocks are positive. -/
def MMInv (mm : MemoryManager) : Prop :=
  mm.footprint.Nodup ∧ FreeChain mm.free ∧
    (PosBlocks mm.free ∨ (mm.free = [(0, 0)] ∧ mm.allocs = [])) ∧
    PosBlocks mm.allocBlocks

/-- The configuration constants of `CONFIG` that the algorithmic core
reads (bounds are `Int` because the manual-creation path compares
`parseInt` results against them). -/
structure Config where
  memTotal : Nat
  minProcMem : Int
  maxProcMem : Int
  minCpuBurst : Int
  maxCpuBurst : Int
  timeQuantum : Int
deriving DecidableEq, Repr

/-- The default `CONFIG` object of `script.js` (only the fields the
core reads). -/
def CONFIG : Config :=
  { memTotal := 1024, minProcMem := 20, maxProcMem := 300,
    minCpuBurst := 3, maxCpuBurst := 15, timeQuantum := 3 }

/-- The process-state strings assigned in `script.js`:
`Nuevo`, `Listo`, `Ejecutando`, `Bloqueado`, `EsperandoMem`. -/
inductive PState where
  | nuevo | listo | ejecutando | bloqueado | esperandoMem
deriving DecidableEq, Repr

/-- The values the source stores in `p.memBlock`: `null` at creation,
a `(start, size)` array after a successful allocation, and the literal
`true` written by `processMemoryQueue`. -/
inductive MemBlockVal where
  | null
  | blk (b : Block)
  | boolTrue
deriving DecidableEq, Repr

/-- JS truthiness of a `memBlock` value (`null` is falsy, an array and
`true` are truthy), as tested by `terminateProcess`. -/
def MemBlockVal.truthy : MemBlockVal → Bool
  | .null => false
  | _ => true

/-- The `Process` class fields used by the engine. -/
structure Proc where
  pid : Nat
  memReq : Nat
  totalCpu : Int
  remainingCpu : Int
  state : PState
  memBlock : MemBlockVal
  quantumLeft : Int
  ioRemaining : Int
deriving DecidableEq, Repr

/-- Constructor `new Process(memReq, cpuBurst)` with the pid the counter would
hand out. -/
def Process.make (cfg : Config) (pid memReq : Nat) (cpuBurst : Int) : Proc :=
  { pid := pid, memReq := memReq, totalCpu := cpuBurst, remainingCpu := cpuBurst,
    state := .nuevo, memBlock := .null, quantumLeft := cfg.timeQuantum, ioRemaining := 0 }

/-- The global mutable state of `script.js` that the engine reads and
writes: the process table, the three queues, the running pid, the
memory manager, the tick and pid counters, and the statistics
counters. -/
structure SimState where
  processes : List (Nat × Proc)
  readyQueue : List Nat
  ioQueue : List Nat
  waitingForMem : List Nat
  currentRunning : Option Nat
  mem : MemoryManager
  tickCount : Nat
  pidCounter : Nat
  completedProcesses : Nat
  totalWaitTime : Int
  contextSwitches : Nat
  totalProcessesCreated : Nat
  processStartTimes : List (Nat × Nat)
deriving DecidableEq, Repr

/-- The outcomes of the random draws a single `tick` consumes:
whether the spawn draw fires (and the sampled memory requirement and
CPU burst), whether the I/O draw fires for the running process, and
the sampled I/O duration. -/
structure TickInput where
  spawn : Option (Nat × Int)
  ioBlock : Bool
  ioDuration : Int
deriving DecidableEq, Repr

/-- Function `tryAllocateAndEnqueue(proc)`: attempt a first-fit allocation; on
success store the block, mark the process `Listo` and append it to the
ready queue, otherwise mark it `EsperandoMem` and append it to the
memory-wait queue. -/
def tryAllocateAndEnqueue (s : SimState) (p : Proc) : SimState :=
  match s.mem.firstFitAllocate p.pid p.memReq with
  | (some blk, mem') =>
    { s with mem := mem',
             processes := mapSet p.pid { p with memBlock := .blk blk, state := .listo } s.processes,
             readyQueue := s.readyQueue ++ [p.pid] }
  | (none, _) =>
    { s with processes := mapSet p.pid { p with state := .esperandoMem } s.processes,
             waitingForMem := s.waitingForMem ++ [p.pid] }

/-- Function `maybeCreateRandomProcess()`: when the spawn draw fired (carrying
the sampled memory requirement and CPU burst), create the process,
register it and its start tick, bump `totalProcessesCreated` and run
`tryAllocateAndEnqueue`. -/
def maybeCreateRandomProcess (cfg : Config) (s : SimState) (spawn : Option (Nat × Int)) :
    SimState :=
  match spawn with
  | none => s
  | some (memReq, cpuBurst) =>
    let p := Process.make cfg s.pidCounter memReq cpuBurst
    let s1 := { s with pidCounter := s.pidCounter + 1,
                       processes := mapSet p.pid p s.processes,
                       processStartTimes := mapSet p.pid s.tickCount s.processStartTimes,
                       totalProcessesCreated := s.totalProcessesCreated + 1 }
    tryAllocateAndEnqueue s1 p

/-- Function `createManualProcess()` with the two parsed form values: reject
when either is outside the configured bounds (the source shows a toast
and returns), otherwise run the same creation body as the automatic
spawn.  In-range values are nonnegative, so the memory requirement is
converted with `Int.toNat`. -/
def createManualProcess (cfg : Config) (s : SimState) (memReq cpuBurst : Int) : SimState :=
  if memReq < cfg.minProcMem ∨ memReq > cfg.maxProcMem then s
  else if cpuBurst < cfg.minCpuBurst ∨ cpuBurst > cfg.maxCpuBurst then s
  else
    let p := Process.make cfg s.pidCounter memReq.toNat cpuBurst
    let s1 := { s with pidCounter := s.pidCounter + 1,
                       processes := mapSet p.pid p s.processes,
                       processStartTimes := mapSet p.pid s.tickCount s.processStartTimes,
                       totalProcessesCreated := s.totalProcessesCreated + 1 }
    tryAllocateAndEnqueue s1 p

/-- The I/O-advance loop inlined in `tick`: iterate over `ioQueue`
from the last index down to 0 (so later entries are handled first),
silently dropping entries whose pid is no longer in the process table,
decrementing `ioRemaining` and, at 0, moving the process to `Listo`
with a fresh quantum and appending it to the ready queue.  Returns the
new `ioQueue`, process table and ready queue. -/
def ioAdvance (cfg : Config) : List Nat → List (Nat × Proc) → List Nat →
    List Nat × List (Nat × Proc) × List Nat
  | [], procs, readyQ => ([], procs, readyQ)
  | pid :: rest, procs, readyQ =>
    let (ioRest, procs1, ready1) := ioAdvance cfg rest procs readyQ
    match mapGet pid procs1 with
    | none => (ioRest, procs1, ready1)
    | some p =>
      let p1 := { p with ioRemaining := p.ioRemaining - 1 }
      if p1.ioRemaining ≤ 0 then
        (ioRest,
         mapSet pid { p1 with state := .listo, quantumLeft := cfg.timeQuantum } procs1,
         ready1 ++ [pid])
      else
        (pid :: ioRest, mapSet pid p1 procs1, ready1)

/-- Function `schedule()`: if the CPU is idle and the ready queue is non-empty,
dequeue the head, mark it `Ejecutando` and reset its quantum (the
source reads the process without a staleness check, so a stale head
pid is a `TypeError`); if a process is running and the ready queue is
empty, refresh its quantum in place. -/
def schedule (cfg : Config) (s : SimState) : Except String SimState :=
  match s.currentRunning with
  | none =>
    match s.readyQueue with
    | [] => Except.ok s
    | pid :: rest =>
      match mapGet pid s.processes with
      | none => Except.error "TypeError: Cannot set properties of undefined (setting state)"
      | some p =>
        Except.ok { s with
          readyQueue := rest,
          currentRunning := some pid,
          processes := mapSet pid { p with state := .ejecutando, quantumLeft := cfg.timeQuantum }
            s.processes }
  | some rp =>
    if s.readyQueue.length > 0 then Except.ok s
    else
      match mapGet rp s.processes with
      | none => Except.error "TypeError: Cannot set properties of undefined (setting quantumLeft)"
      | some p =>
        Except.ok { s with
          processes := mapSet rp { p with quantumLeft := cfg.timeQuantum } s.processes }

/-- The loop of `freeMemoryAndAwaken`: walk a snapshot of
`waitingForMem` front to back; drop stale pids from the queue; attempt
a first-fit allocation for each live waiter, moving it to `Listo` and
the ready queue on success; stop at the first waiter whose allocation
fails. -/
def awakenLoop : List Nat → SimState → SimState
  | [], s => s
  | wpid :: rest, s =>
    match mapGet wpid s.processes with
    | none => awakenLoop rest { s with waitingForMem := s.waitingForMem.erase wpid }
    | some p =>
      match s.mem.firstFitAllocate wpid p.memReq with
      | (some blk, mem') =>
        awakenLoop rest
          { s with mem := mem',
                   processes := mapSet wpid { p with memBlock := .blk blk, state := .listo }
                     s.processes,
                   waitingForMem := s.waitingForMem.erase wpid,
                   readyQueue := s.readyQueue ++ [wpid] }
      | (none, _) => s

/-- Function `freeMemoryAndAwaken(pid)`: free the pid's allocation, then try to
satisfy the memory-wait queue in FIFO order, stopping at the first
unsatisfiable waiter. -/
def freeMemoryAndAwaken (s : SimState) (pid : Nat) : SimState :=
  awakenLoop s.waitingForMem { s with mem := s.mem.freeAlloc pid }

/-- The loop of `processMemoryQueue()`: iterate `waitingForMem` from
the last index down to 0.  The body reads `p.pid` on a possibly
`undefined` process (no staleness check) and then calls
`memoryManager.alloc`, a method that does not exist on
`MemoryManager`; both throw a `TypeError`, so the loop faults at the
first entry it handles. -/
def pmqLoop : List Nat → List (Nat × Proc) → Except String (List Nat)
  | [], _ => Except.ok []
  | pid :: rest, procs =>
    match pmqLoop rest procs with
    | Except.error e => Except.error e
    | Except.ok _ =>
      match mapGet pid procs with
      | none => Except.error "TypeError: Cannot read properties of undefined (reading pid)"
      | some _ => Except.error "TypeError: memoryManager.alloc is not a function"

/-- Function `processMemoryQueue()`: the retry helper invoked by
`terminateProcess`; returns the surviving queue or the thrown
`TypeError`. -/
def processMemoryQueue (s : SimState) : Except String SimState :=
  match pmqLoop s.waitingForMem s.processes with
  | Except.error e => Except.error e
  | Except.ok w' => Except.ok { s with waitingForMem := w' }

/-- Function `terminateProcess(pid)`: free the memory if `memBlock` is truthy,
update the completion counters and wait-time total, remove the process
and its start time, clear the CPU, then call `processMemoryQueue`.
(The start time is always present for a process created by the engine;
a missing entry is read as 0.) -/
def terminateProcess (s : SimState) (pid : Nat) : Except String SimState :=
  match mapGet pid s.processes with
  | none => Except.error "TypeError: Cannot read properties of undefined (reading memBlock)"
  | some p =>
    let mem' := if p.memBlock.truthy then s.mem.freeAlloc pid else s.mem
    let waitTime : Int := (s.tickCount : Int) - ((mapGet pid s.processStartTimes).getD 0 : Int)
    processMemoryQueue
      { s with mem := mem',
               completedProcesses := s.completedProcesses + 1,
               totalWaitTime := s.totalWaitTime + waitTime,
               processes := mapDelete pid s.processes,
               processStartTimes := mapDelete pid s.processStartTimes,
               currentRunning := none }

/-- The execute sub-phase of `tick`: if a process is running, run one
unit of work — a fired I/O draw blocks it; otherwise decrement
`remainingCpu` and `quantumLeft`, then terminate at 0 remaining burst
(releasing memory and retrying waiters), else preempt on an exhausted
quantum when other processes are ready, else refresh the quantum in
place when the ready queue is empty.  A stale `currentRunning` pid is
cleared. -/
def tickExecute (cfg : Config) (inp : TickInput) (s : SimState) : Except String SimState :=
  match s.currentRunning with
  | none => Except.ok s
  | some pid =>
    match mapGet pid s.processes with
    | none => Except.ok { s with currentRunning := none }
    | some p =>
      if inp.ioBlock then
        Except.ok { s with
          processes := mapSet pid { p with state := .bloqueado, ioRemaining := inp.ioDuration }
            s.processes,
          ioQueue := s.ioQueue ++ [pid],
          currentRunning := none }
      else
        let p1 := { p with remainingCpu := p.remainingCpu - 1, quantumLeft := p.quantumLeft - 1 }
        let s1 := { s with processes := mapSet pid p1 s.processes }
        if p1.remainingCpu ≤ 0 then
          terminateProcess { freeMemoryAndAwaken s1 pid with currentRunning := none } pid
        else
          if p1.quantumLeft ≤ 0 ∧ 0 < s1.readyQueue.length then
            Except.ok { s1 with
              processes := mapSet pid { p1 with state := .listo, quantumLeft := cfg.timeQuantum }
                s1.processes,
              readyQueue := s1.readyQueue ++ [pid],
              currentRunning := none }
          else
            if s1.readyQueue.length = 0 then
              Except.ok { s1 with
                processes := mapSet pid { p1 with quantumLeft := cfg.timeQuantum } s1.processes }
            else
              Except.ok s1

/-- The memory-retry loop inlined at the end of `tick`: iterate
`waitingForMem` from the last index down to 0, silently dropping stale
pids; for a live waiter the body calls `memoryManager.alloc`, which
does not exist, so it throws a `TypeError`.  Returns the surviving
queue (the process table is not modified before a throw). -/
def tickMemRetryLoop : List Nat → List (Nat × Proc) → Except String (List Nat)
  | [], _ => Except.ok []
  | pid :: rest, procs =>
    match tickMemRetryLoop rest procs with
    | Except.error e => Except.error e
    | Except.ok keptRest =>
      match mapGet pid procs with
      | none => Except.ok keptRest
      | some _ => Except.error "TypeError: memoryManager.alloc is not a function"

/-- This definition follows the words of the specification, not the
source, and exists only to be compared with the source's memory-retry
phase: process `WaitingForMemory` strictly in arrival (FIFO) order,
silently dropping entries whose process no longer exists; reattempt
the allocation of each head entry, and on success record the block,
mark the waiter `Listo` and append it to the ready-queue tail; stop at
the first entry whose request cannot be satisfied. -/
def specFifoRetryLoop : List Nat → SimState → SimState
  | [], s => s
  | wpid :: rest, s =>
    match mapGet wpid s.processes with
    | none => specFifoRetryLoop rest { s with waitingForMem := s.waitingForMem.erase wpid }
    | some p =>
      match s.mem.firstFitAllocate wpid p.memReq with
      | (some blk, mem') =>
        specFifoRetryLoop rest
          { s with mem := mem',
                   processes := mapSet wpid { p with memBlock := .blk blk, state := .listo }
                     s.processes,
                   waitingForMem := s.waitingForMem.erase wpid,
                   readyQueue := s.readyQueue ++ [wpid] }
      | (none, _) => s

/-- The spec-worded FIFO memory-retry phase over the whole state (see
`specFifoRetryLoop`). -/
def specFifoMemRetry (s : SimState) : SimState :=
  specFifoRetryLoop s.waitingForMem s

/-- The memory-retry phase at the end of `tick`, as a function of the
whole state: run the inlined loop over `waitingForMem`. -/
def tickMemRetryPhase (s : SimState) : Except String SimState :=
  match tickMemRetryLoop s.waitingForMem s.processes with
  | Except.error e => Except.error e
  | Except.ok w' => Except.ok { s with waitingForMem := w' }

/-- Phases 1–2 of `tick`: bump the tick counter, maybe spawn, and run
the inlined I/O-advance loop, reassembling the state. -/
def tickSpawnIoPhase (cfg : Config) (s : SimState) (inp : TickInput) : SimState :=
  let s2 := maybeCreateRandomProcess cfg { s with tickCount := s.tickCount + 1 } inp.spawn
  let adv := ioAdvance cfg s2.ioQueue s2.processes s2.readyQueue
  { s2 with ioQueue := adv.1, processes := adv.2.1, readyQueue := adv.2.2 }

/-- Function `tick()`: one discrete step — bump the tick counter, maybe spawn,
advance I/O, schedule, execute one unit of work, then retry the
memory-wait queue.  Any `TypeError` thrown by a sub-phase aborts the
tick. -/
def tick (cfg : Config) (s : SimState) (inp : TickInput) : Except String SimState :=
  match schedule cfg (tickSpawnIoPhase cfg s inp) with
  | Except.error e => Except.error e
  | Except.ok s4 =>
    match tickExecute cfg inp s4 with
    | Except.error e => Except.error e
    | Except.ok s5 => tickMemRetryPhase s5

/-- Shorthand for a `Process` record in a chosen state. -/
def mkProc (pid memReq : Nat) (rem : Int) (st : PState) (q : Int) (mb : MemBlockVal) : Proc :=
  { pid := pid, memReq := memReq, totalCpu := rem, remainingCpu := rem, state := st,
    memBlock := mb, quantumLeft := q, ioRemaining := 0 }

/-- A tick in which no random draw fires. -/
def quietInput : TickInput := { spawn := none, ioBlock := false, ioDuration := 0 }

/-- A state whose memory-wait queue holds the live process 1 (in
`EsperandoMem`), with an otherwise idle engine. -/
def cexState1 : SimState :=
  { processes := [(1, mkProc 1 100 5 .esperandoMem 3 .null)],
    readyQueue := [], ioQueue := [], waitingForMem := [1], currentRunning := none,
    mem := { total := 1024, free := [(300, 724)], allocs := [(9, (0, 300))] },
    tickCount := 7, pidCounter := 2, completedProcesses := 0, totalWaitTime := 0,
    contextSwitches := 0, totalProcessesCreated := 1, processStartTimes := [(1, 3)] }

/-- A state whose memory-wait queue holds two live waiters in arrival
order: process 4 (500 units, unsatisfiable) ahead of process 5 (50
units, satisfiable from the 100 free units). -/
def cexState2 : SimState :=
  { processes := [(4, mkProc 4 500 5 .esperandoMem 3 .null),
                  (5, mkProc 5 50 4 .esperandoMem 3 .null)],
    readyQueue := [], ioQueue := [], waitingForMem := [4, 5], currentRunning := none,
    mem := { total := 1024, free := [(0, 100)], allocs := [(9, (100, 924))] },
    tickCount := 7, pidCounter := 6, completedProcesses := 0, totalWaitTime := 0,
    contextSwitches := 0, totalProcessesCreated := 2, processStartTimes := [(4, 3), (5, 4)] }

/-- A state in which process 1 is running with one quantum tick left
and process 2 waits in the ready queue, so the next executed tick
preempts process 1. -/
def cexState6 : SimState :=
  { processes := [(1, mkProc 1 100 5 .ejecutando 1 (.blk (0, 100))),
                  (2, mkProc 2 50 4 .listo 3 (.blk (100, 50)))],
    readyQueue := [2], ioQueue := [], waitingForMem := [], currentRunning := some 1,
    mem := { total := 1024, free := [(150, 874)], allocs := [(1, (0, 100)), (2, (100, 50))] },
    tickCount := 10, pidCounter := 3, completedProcesses := 0, totalWaitTime := 0,
    contextSwitches := 0, totalProcessesCreated := 2, processStartTimes := [(1, 0), (2, 0)] }

/-- A preemption scenario for the context-switch counter: process 3 is
running with one quantum tick left, process 4 is ready. -/
def cexState7 : SimState :=
  { processes := [(3, mkProc 3 80 6 .ejecutando 1 (.blk (0, 80))),
                  (4, mkProc 4 60 4 .listo 3 (.blk (80, 60)))],
    readyQueue := [4], ioQueue := [], waitingForMem := [], currentRunning := some 3,
    mem := { total := 1024, free := [(140, 884)], allocs := [(3, (0, 80)), (4, (80, 60))] },
    tickCount := 20, pidCounter := 5, completedProcesses := 0, totalWaitTime := 0,
    contextSwitches := 0, totalProcessesCreated := 2, processStartTimes := [(3, 0), (4, 1)] }

/-- A state whose memory-wait queue holds the stale pid 7, which no
longer exists in the process table. -/
def cexState9 : SimState :=
  { processes := [], readyQueue := [], ioQueue := [], waitingForMem := [7],
    currentRunning := none, mem := MemoryManager.make 1024, tickCount := 3, pidCounter := 8,
    completedProcesses := 0, totalWaitTime := 0, contextSwitches := 0,
    totalProcessesCreated := 1, processStartTimes := [] }

/-- A state with two live waiters (5 then 6) whose requests both fit
once the block of the departed pid 2 is released. -/
def witState2 : SimState :=
  { processes := [(5, mkProc 5 30 4 .esperandoMem 3 .null),
                  (6, mkProc 6 20 4 .esperandoMem 3 .null)],
    readyQueue := [], ioQueue := [], waitingForMem := [5, 6], currentRunning := none,
    mem := { total := 100, free := [], allocs := [(2, (0, 100))] },
    tickCount := 9, pidCounter := 7, completedProcesses := 0, totalWaitTime := 0,
    contextSwitches := 0, totalProcessesCreated := 3, processStartTimes := [(5, 1), (6, 2)] }

/-- The op sequence of the spec's allocator scenario (capacity 100). -/
def scenarioOps : List MMOp :=
  [.alloc 1 40, .alloc 2 50, .alloc 3 20, .free 1, .alloc 3 20]

/-- An op sequence that allocates twice under the same pid, orphaning
the first block. -/
def reuseOps : List MMOp := [.alloc 1 10, .alloc 1 10]

/-- An op sequence (with one zero-size request) after whose final
`freeAlloc` the free list `[(0,10), (3,0), (10,1)]` contains the
adjacent pair `(0,10)` / `(10,1)`. -/
def zeroSizeOps : List MMOp :=
  [.alloc 1 3, .alloc 2 0, .alloc 3 2, .free 3, .free 2, .free 1, .alloc 4 10, .free 4]

/-! ### Lemmas about address regions -/

theorem mem_region {x : Nat} {b : Block} : x ∈ region b ↔ b.1 ≤ x ∧ x < b.1 + b.2 := by
  simp only [region, Multiset.mem_map, Multiset.mem_range]
  constructor
  · rintro ⟨i, hi, rfl⟩
    omega
  · rintro ⟨h1, h2⟩
    exact ⟨x - b.1, by omega, by omega⟩

theorem region_split (s a b : Nat) :
    region (s, a + b) = region (s, a) + region (s + a, b) := by
  simp only [region, Multiset.range_add, Multiset.map_add, Multiset.map_map]
  congr 1
  apply Multiset.map_congr rfl
  intro x _
  simp only [Function.comp_apply]
  omega

theorem card_region (b : Block) : Multiset.card (region b) = b.2 := by
  simp [region]

theorem regions_nil : regions [] = 0 := rfl

theorem regions_cons (b : Block) (l : List Block) :
    regions (b :: l) = region b + regions l := rfl

theorem regions_append (l₁ l₂ : List Block) :
    regions (l₁ ++ l₂) = regions l₁ + regions l₂ := by
  simp [regions, List.map_append, List.sum_append]

theorem regions_perm {l₁ l₂ : List Block} (h : l₁.Perm l₂) : regions l₁ = regions l₂ :=
  (h.map region).sum_eq

theorem region_le_regions {b : Block} {l : List Block} (h : b ∈ l) : region b ≤ regions l := by
  induction l with
  | nil => cases h
  | cons c l ih =>
    rcases List.mem_cons.mp h with rfl | h
    · rw [regions_cons]; exact Multiset.le_add_right _ _
    · rw [regions_cons, add_comm]
      exact le_trans (ih h) (Multiset.le_add_right _ _)

theorem card_regions (l : List Block) :
    Multiset.card (regions l) = (l.map (·.2)).sum := by
  induction l with
  | nil => rfl
  | cons b l ih => simp [regions_cons, card_region, ih]

theorem nodup_regions_pairwise {l : List Block} (h : (regions l).Nodup) :
    RegionsDisjoint l := by
  induction l with
  | nil => exact List.Pairwise.nil
  | cons b l ih =>
    rw [regions_cons, Multiset.nodup_add] at h
    rcases h with ⟨-, hl, hd⟩
    refine List.pairwise_cons.mpr ⟨fun c hc => ?_, ih hl⟩
    exact hd.mono_right (region_le_regions hc)

/-! ### Lemmas about the stable sort and the merge pass -/

theorem insertByStart_perm (x : Block) (l : List Block) :
    (insertByStart x l).Perm (x :: l) := by
  induction l with
  | nil => exact List.Perm.refl _
  | cons y l ih =>
    by_cases h : x.1 ≤ y.1
    · simp [insertByStart, h]
    · rw [insertByStart, if_neg h]
      exact (ih.cons y).trans (List.Perm.swap x y l)

theorem sortFree_perm (l : List Block) : (sortFree l).Perm l := by
  induction l with
  | nil => exact List.Perm.refl _
  | cons x l ih => exact (insertByStart_perm x (sortFree l)).trans (ih.cons x)

theorem insertByStart_sorted (x : Block) {l : List Block} (h : SortedByStart l) :
    SortedByStart (insertByStart x l) := by
  induction l with
  | nil => simp [insertByStart, SortedByStart]
  | cons y l ih =>
    rcases List.pairwise_cons.mp h with ⟨hy, hl⟩
    by_cases hx : x.1 ≤ y.1
    · rw [insertByStart, if_pos hx]
      refine List.pairwise_cons.mpr ⟨?_, h⟩
      intro c hc
      rcases List.mem_cons.mp hc with rfl | hc
      · exact hx
      · exact le_trans hx (hy c hc)
    · rw [insertByStart, if_neg hx]
      refine List.pairwise_cons.mpr ⟨?_, ih hl⟩
      intro c hc
      rcases List.mem_cons.mp ((insertByStart_perm x l).mem_iff.mp hc) with rfl | h'
      · omega
      · exact hy c h'

theorem sortFree_sorted (l : List Block) : SortedByStart (sortFree l) := by
  induction l with
  | nil => exact List.Pairwise.nil
  | cons x l ih => exact insertByStart_sorted x ih

theorem mergeRun_regions (acc : Block) (l : List Block) :
    regions (mergeRun acc l) = region acc + regions l := by
  induction l generalizing acc with
  | nil => simp [mergeRun, regions_cons, regions_nil]
  | cons b l ih =>
    obtain ⟨s, sz⟩ := b
    by_cases h : acc.1 + acc.2 = s
    · rw [mergeRun, if_pos h, ih, regions_cons]
      have : region (acc.1, acc.2 + sz) = region (acc.1, acc.2) + region (s, sz) := by
        rw [region_split, h]
      rw [this, add_assoc]
    · rw [mergeRun, if_neg h, regions_cons, regions_cons, ih]

theorem mergeFree_regions (l : List Block) : regions (mergeFree l) = regions l := by
  cases l with
  | nil => rfl
  | cons b l => rw [mergeFree, mergeRun_regions, regions_cons]

theorem mergeRun_chain (acc : Block) (l : List Block)
    (h : (acc :: l).Pairwise (fun a b => a.1 + a.2 ≤ b.1)) :
    FreeChain (mergeRun acc l) ∧ ∀ b ∈ mergeRun acc l, acc.1 ≤ b.1 := by
  induction l generalizing acc with
  | nil =>
    refine ⟨List.pairwise_singleton _ _, ?_⟩
    intro b hb
    rw [List.mem_singleton.mp hb]
  | cons b l ih =>
    obtain ⟨s, sz⟩ := b
    rcases List.pairwise_cons.mp h with ⟨hacc, htail⟩
    by_cases hm : acc.1 + acc.2 = s
    · have h' : (((acc.1, acc.2 + sz) : Block) :: l).Pairwise (fun a b => a.1 + a.2 ≤ b.1) := by
        rcases List.pairwise_cons.mp htail with ⟨hs, hl⟩
        refine List.pairwise_cons.mpr ⟨fun c hc => ?_, hl⟩
        have := hs c hc
        simp only at this ⊢
        omega
      rcases ih (acc.1, acc.2 + sz) h' with ⟨hchain, hge⟩
      rw [mergeRun, if_pos hm]
      exact ⟨hchain, fun c hc => hge c hc⟩
    · have hlt : acc.1 + acc.2 < s :=
        lt_of_le_of_ne (hacc (s, sz) (List.mem_cons_self _ _)) hm
      rcases ih (s, sz) htail with ⟨hchain, hge⟩
      rw [mergeRun, if_neg hm]
      refine ⟨List.pairwise_cons.mpr ⟨fun c hc => ?_, hchain⟩, fun c hc => ?_⟩
      · exact lt_of_lt_of_le hlt (hge c hc)
      · rcases List.mem_cons.mp hc with rfl | hc
        · exact le_refl _
        · have := hge c hc
          omega

theorem mergeRun_pos (acc : Block) (l : List Block)
    (hacc : 0 < acc.2) (hl : PosBlocks l) : PosBlocks (mergeRun acc l) := by
  induction l generalizing acc with
  | nil =>
    intro b hb
    rw [List.mem_singleton.mp hb]
    exact hacc
  | cons b l ih =>
    obtain ⟨s, sz⟩ := b
    by_cases hm : acc.1 + acc.2 = s
    · rw [mergeRun, if_pos hm]
      exact ih (acc.1, acc.2 + sz) (by simp; omega) (fun c hc => hl c (List.mem_cons_of_mem _ hc))
    · rw [mergeRun, if_neg hm]
      intro c hc
      rcases List.mem_cons.mp hc with rfl | hc
      · exact hacc
      · exact ih (s, sz) (hl (s, sz) (List.mem_cons_self _ _))
          (fun d hd => hl d (List.mem_cons_of_mem _ hd)) c hc

theorem chainLe_of_sorted_disjoint {l : List Block}
    (hs : SortedByStart l) (hd : RegionsDisjoint l) (hp : PosBlocks l) :
    l.Pairwise (fun a b => a.1 + a.2 ≤ b.1) := by
  refine List.Pairwise.imp_of_mem ?_ (hs.and hd)
  intro a b ha hb hab
  rcases hab with ⟨hle, hdis⟩
  by_contra hcon
  have hb1 : b.1 ∈ region a := mem_region.mpr ⟨hle, by omega⟩
  have hb2 : b.1 ∈ region b := mem_region.mpr ⟨le_refl _, by have := hp b hb; omega⟩
  exact Multiset.disjoint_left.mp hdis hb1 hb2

theorem FreeChain.sortedByStart {l : List Block} (h : FreeChain l) : SortedByStart l :=
  h.imp fun hab => by omega

theorem FreeChain.noAdjacent {l : List Block} (h : FreeChain l) : NoAdjacent l :=
  h.imp fun hab => ⟨by omega, by omega⟩

/-! ### Lemmas about the first-fit scan -/

theorem ffaScan_eq_none {size : Nat} {l : List Block} :
    ffaScan size l = none ↔ ∀ b ∈ l, b.2 < size := by
  induction l with
  | nil => simp [ffaScan]
  | cons b l ih =>
    obtain ⟨s, sz⟩ := b
    by_cases h : size ≤ sz
    · constructor
      · intro hfalse
        rw [ffaScan, if_pos h] at hfalse
        by_cases he : sz = size
        · rw [if_pos he] at hfalse
          exact absurd hfalse (by simp)
        · rw [if_neg he] at hfalse
          exact absurd hfalse (by simp)
      · intro hall
        have := hall (s, sz) (List.mem_cons_self _ _)
        omega
    · cases hr : ffaScan size l with
      | none =>
        rw [ffaScan, if_neg h, hr]
        simp only [true_iff]
        intro b hb
        rcases List.mem_cons.mp hb with rfl | hb
        · omega
        · exact (ih.mp hr) b hb
      | some p =>
        obtain ⟨blk0, rest0⟩ := p
        rw [ffaScan, if_neg h, hr]
        constructor
        · intro hfalse
          exact absurd hfalse (by simp)
        · intro hall
          have hnone : ffaScan size l = none :=
            ih.mpr fun b hb => hall b (List.mem_cons_of_mem _ hb)
          rw [hnone] at hr
          exact absurd hr (by simp)

theorem ffaScan_of_decomp {size : Nat} (pre : List Block) (s sz : Nat) (post : List Block)
    (hpre : ∀ b ∈ pre, b.2 < size) (hfit : size ≤ sz) :
    ffaScan size (pre ++ (s, sz) :: post) =
      some ((s, size), pre ++ (if sz = size then post else (s + size, sz - size) :: post)) := by
  induction pre with
  | nil =>
    by_cases he : sz = size <;> simp [ffaScan, hfit, he]
  | cons b pre ih =>
    obtain ⟨t, tz⟩ := b
    have hb : tz < size := hpre (t, tz) (List.mem_cons_self _ _)
    rw [List.cons_append, ffaScan, if_neg (by omega),
      ih (fun c hc => hpre c (List.mem_cons_of_mem _ hc))]
    by_cases he : sz = size <;> simp [he]

theorem ffaScan_some_decomp {size : Nat} {l l' : List Block} {blk : Block}
    (h : ffaScan size l = some (blk, l')) :
    ∃ pre s sz post, l = pre ++ (s, sz) :: post ∧ (∀ b ∈ pre, b.2 < size) ∧ size ≤ sz ∧
      blk = (s, size) ∧
      l' = pre ++ (if sz = size then post else (s + size, sz - size) :: post) := by
  induction l generalizing l' blk with
  | nil => exact absurd h (by simp [ffaScan])
  | cons b l ih =>
    obtain ⟨s, sz⟩ := b
    by_cases hf : size ≤ sz
    · rw [ffaScan, if_pos hf] at h
      by_cases he : sz = size
      · rw [if_pos he] at h
        simp only [Option.some.injEq, Prod.mk.injEq] at h
        rcases h with ⟨rfl, rfl⟩
        exact ⟨[], s, sz, l, by simp, by simp, hf, rfl, by simp [he]⟩
      · rw [if_neg he] at h
        simp only [Option.some.injEq, Prod.mk.injEq] at h
        rcases h with ⟨rfl, rfl⟩
        exact ⟨[], s, sz, l, by simp, by simp, hf, rfl, by simp [he]⟩
    · rw [ffaScan, if_neg hf] at h
      cases hr : ffaScan size l with
      | none => rw [hr] at h; exact absurd h (by simp)
      | some p =>
        obtain ⟨blk0, rest'⟩ := p
        rw [hr] at h
        simp only [Option.some.injEq, Prod.mk.injEq] at h
        rcases h with ⟨rfl, rfl⟩
        rcases ih hr with ⟨pre, s0, sz0, post, hdec, hpre, hfit, hblk, hrest⟩
        refine ⟨(s, sz) :: pre, s0, sz0, post, by rw [hdec, List.cons_append],
          ?_, hfit, hblk, by rw [hrest, List.cons_append]⟩
        intro c hc
        rcases List.mem_cons.mp hc with rfl | hc
        · omega
        · exact hpre c hc

theorem ffaScan_regions {size : Nat} {l l' : List Block} {blk : Block}
    (h : ffaScan size l = some (blk, l')) :
    blk.2 = size ∧ regions l = region blk + regions l' := by
  rcases ffaScan_some_decomp h with ⟨pre, s, sz, post, rfl, -, hfit, rfl, rfl⟩
  refine ⟨rfl, ?_⟩
  have hcarve : region (s, sz) = region (s, size) + region (s + size, sz - size) := by
    have : sz = size + (sz - size) := by omega
    rw [this, region_split, Nat.add_sub_cancel_left]
  by_cases he : sz = size
  · subst he
    rw [if_pos rfl, regions_append, regions_append, regions_cons]
    abel
  · rw [if_neg he, regions_append, regions_append, regions_cons, regions_cons, hcarve]
    abel

/-! ### Lemmas about JS `Map` operations -/

theorem mapGet_mapSet_self {β : Type} (k : Nat) (v : β) (l : List (Nat × β)) :
    mapGet k (mapSet k v l) = some v := by
  induction l with
  | nil => simp [mapSet, mapGet]
  | cons p l ih =>
    obtain ⟨k', v'⟩ := p
    by_cases h : k' = k
    · simp [mapSet, mapGet, h]
    · simp [mapSet, mapGet, h, ih]

theorem mapGet_mapSet_ne {β : Type} {k k' : Nat} (h : k' ≠ k) (v : β) (l : List (Nat × β)) :
    mapGet k (mapSet k' v l) = mapGet k l := by
  induction l with
  | nil => simp [mapSet, mapGet, h]
  | cons p l ih =>
    obtain ⟨k₁, v₁⟩ := p
    by_cases h1 : k₁ = k'
    · subst h1
      rw [mapSet, if_pos rfl, mapGet, if_neg h, mapGet, if_neg h]
    · rw [mapSet, if_neg h1]
      by_cases h2 : k₁ = k
      · rw [mapGet, if_pos h2, mapGet, if_pos h2]
      · rw [mapGet, if_neg h2, mapGet, if_neg h2, ih]

theorem mapGet_eq_none_iff {β : Type} {k : Nat} {l : List (Nat × β)} :
    mapGet k l = none ↔ k ∉ l.map (·.1) := by
  induction l with
  | nil => simp [mapGet]
  | cons p l ih =>
    obtain ⟨k₁, v₁⟩ := p
    by_cases h : k₁ = k
    · simp [mapGet, h]
    · simp [mapGet, h, ih]
      tauto

theorem mapGet_some_decomp {β : Type} {k : Nat} {l : List (Nat × β)} {w : β}
    (h : mapGet k l = some w) :
    ∃ l₁ l₂, l = l₁ ++ (k, w) :: l₂ ∧ (∀ p ∈ l₁, p.1 ≠ k) ∧
      (∀ v, mapSet k v l = l₁ ++ (k, v) :: l₂) ∧ mapDelete k l = l₁ ++ l₂ := by
  induction l with
  | nil => exact absurd h (by simp [mapGet])
  | cons p l ih =>
    obtain ⟨k₁, v₁⟩ := p
    by_cases hk : k₁ = k
    · subst hk
      rw [mapGet, if_pos rfl, Option.some.injEq] at h
      subst h
      exact ⟨[], l, by simp, by simp, fun v => by simp [mapSet], by simp [mapDelete]⟩
    · rw [mapGet, if_neg hk] at h
      rcases ih h with ⟨l₁, l₂, hdec, hne, hset, hdel⟩
      refine ⟨(k₁, v₁) :: l₁, l₂, by rw [hdec, List.cons_append], ?_,
        fun v => by rw [mapSet, if_neg hk, hset v, List.cons_append],
        by rw [mapDelete, if_neg hk, hdel, List.cons_append]⟩
      intro c hc
      rcases List.mem_cons.mp hc with rfl | hc
      · exact hk
      · exact hne c hc

theorem vals_mapSet_of_none {β : Type} {k : Nat} {l : List (Nat × β)}
    (h : mapGet k l = none) (v : β) :
    (mapSet k v l).map (·.2) = l.map (·.2) ++ [v] := by
  induction l with
  | nil => simp [mapSet]
  | cons p l ih =>
    obtain ⟨k₁, v₁⟩ := p
    by_cases hk : k₁ = k
    · rw [mapGet, if_pos hk] at h
      exact absurd h (by simp)
    · rw [mapGet, if_neg hk] at h
      rw [mapSet, if_neg hk, List.map_cons, List.map_cons, ih h, List.cons_append]

theorem mem_vals_mapSet {β : Type} {k : Nat} {v : β} {l : List (Nat × β)} {x : β}
    (h : x ∈ (mapSet k v l).map (·.2)) : x ∈ l.map (·.2) ∨ x = v := by
  induction l with
  | nil =>
    rw [show mapSet k v ([] : List (Nat × β)) = [(k, v)] from rfl] at h
    simp only [List.map_cons, List.map_nil, List.mem_singleton] at h
    exact Or.inr h
  | cons p l ih =>
    obtain ⟨k₁, v₁⟩ := p
    by_cases hk : k₁ = k
    · rw [mapSet, if_pos hk, List.map_cons] at h
      rcases List.mem_cons.mp h with rfl | h
      · exact Or.inr rfl
      · exact Or.inl (List.mem_cons_of_mem _ h)
    · rw [mapSet, if_neg hk, List.map_cons] at h
      rw [List.map_cons]
      rcases List.mem_cons.mp h with rfl | h
      · exact Or.inl (List.mem_cons_self _ _)
      · rcases ih h with h' | h'
        · exact Or.inl (List.mem_cons_of_mem _ h')
        · exact Or.inr h'

theorem mem_vals_mapDelete {β : Type} {k : Nat} {l : List (Nat × β)} {x : β}
    (h : x ∈ (mapDelete k l).map (·.2)) : x ∈ l.map (·.2) := by
  induction l with
  | nil => exact absurd h (by simp [mapDelete])
  | cons p l ih =>
    obtain ⟨k₁, v₁⟩ := p
    rw [List.map_cons]
    by_cases hk : k₁ = k
    · rw [mapDelete, if_pos hk] at h
      exact List.mem_cons_of_mem _ h
    · rw [mapDelete, if_neg hk, List.map_cons] at h
      rcases List.mem_cons.mp h with rfl | h
      · exact List.mem_cons_self _ _
      · exact List.mem_cons_of_mem _ (ih h)

theorem mapGet_mem_vals {β : Type} {k : Nat} {l : List (Nat × β)} {w : β}
    (h : mapGet k l = some w) : w ∈ l.map (·.2) := by
  rcases mapGet_some_decomp h with ⟨l₁, l₂, rfl, -, -, -⟩
  simp

/-! ### Footprint lemmas -/

theorem footprint_eq (mm : MemoryManager) :
    mm.footprint = regions mm.free + regions mm.allocBlocks := regions_append _ _

theorem regions_singleton (b : Block) : regions [b] = region b := by
  rw [regions_cons, regions_nil, add_zero]

theorem regions_vals_decomp {l₁ l₂ : List (Nat × Block)} {k : Nat} {v : Block} :
    regions ((l₁ ++ (k, v) :: l₂).map (·.2)) =
      region v + (regions (l₁.map (·.2)) + regions (l₂.map (·.2))) := by
  rw [List.map_append, List.map_cons, regions_append, regions_cons]
  abel

theorem firstFitAllocate_footprint (mm : MemoryManager) (pid size : Nat) :
    ((mm.firstFitAllocate pid size).2).footprint ≤ mm.footprint ∧
      (mapGet pid mm.allocs = none →
        ((mm.firstFitAllocate pid size).2).footprint = mm.footprint) := by
  rw [MemoryManager.firstFitAllocate]
  cases hscan : ffaScan size mm.free with
  | none => exact ⟨le_refl _, fun _ => rfl⟩
  | some p =>
    obtain ⟨blk, free'⟩ := p
    rcases ffaScan_regions hscan with ⟨-, hreg⟩
    cases hget : mapGet pid mm.allocs with
    | none =>
      have heq : ({ mm with free := free', allocs := mapSet pid blk mm.allocs } :
          MemoryManager).footprint = mm.footprint := by
        rw [footprint_eq, footprint_eq]
        show regions free' + regions ((mapSet pid blk mm.allocs).map (·.2)) =
          regions mm.free + regions (mm.allocs.map (·.2))
        rw [vals_mapSet_of_none hget blk, regions_append, regions_singleton, hreg]
        abel
      exact ⟨le_of_eq heq, fun _ => heq⟩
    | some w =>
      rcases mapGet_some_decomp hget with ⟨l₁, l₂, hdec, -, hset, -⟩
      constructor
      · rw [footprint_eq, footprint_eq]
        show regions free' + regions ((mapSet pid blk mm.allocs).map (·.2)) ≤
          regions mm.free + regions (mm.allocs.map (·.2))
        rw [hset blk, hdec, regions_vals_decomp, regions_vals_decomp, hreg]
        apply Multiset.le_iff_exists_add.mpr
        exact ⟨region w, by abel⟩
      · intro hfalse
        exact Option.noConfusion hfalse

theorem freeAlloc_footprint (mm : MemoryManager) (pid : Nat) :
    (mm.freeAlloc pid).footprint = mm.footprint := by
  rw [MemoryManager.freeAlloc]
  cases hget : mapGet pid mm.allocs with
  | none => rfl
  | some blk =>
    rcases mapGet_some_decomp hget with ⟨l₁, l₂, hdec, -, -, hdel⟩
    rw [footprint_eq, footprint_eq]
    show regions (mergeFree (sortFree (mm.free ++ [blk]))) +
        regions ((mapDelete pid mm.allocs).map (·.2)) =
      regions mm.free + regions (mm.allocs.map (·.2))
    rw [mergeFree_regions, regions_perm (sortFree_perm _), regions_append, regions_singleton,
      hdel, hdec, regions_vals_decomp, List.map_append, regions_append]
    abel

theorem applyOp_footprint_le (mm : MemoryManager) (op : MMOp) :
    (applyOp mm op).footprint ≤ mm.footprint := by
  cases op with
  | alloc pid size => exact (firstFitAllocate_footprint mm pid size).1
  | free pid => exact le_of_eq (freeAlloc_footprint mm pid)

theorem runOps_footprint_le (ops : List MMOp) :
    ∀ mm : MemoryManager, (runOps mm ops).footprint ≤ mm.footprint := by
  induction ops with
  | nil => intro mm; exact le_refl _
  | cons op rest ih =>
    intro mm
    exact le_trans (ih (applyOp mm op)) (applyOp_footprint_le mm op)

theorem runOps_footprint_eq {ops : List MMOp} :
    ∀ {mm : MemoryManager}, freshSeq mm ops = true →
      (runOps mm ops).footprint = mm.footprint := by
  induction ops with
  | nil => intro mm _; rfl
  | cons op rest ih =>
    intro mm h
    cases op with
    | alloc pid size =>
      rw [show freshSeq mm (MMOp.alloc pid size :: rest) =
            ((mapGet pid mm.allocs).isNone && freshSeq (applyOp mm (MMOp.alloc pid size)) rest)
          from rfl, Bool.and_eq_true] at h
      rcases h with ⟨h1, h2⟩
      rw [runOps, ih h2]
      exact (firstFitAllocate_footprint mm pid size).2 (Option.isNone_iff_eq_none.mp h1)
    | free pid =>
      rw [show freshSeq mm (MMOp.free pid :: rest) =
            (true && freshSeq (applyOp mm (MMOp.free pid)) rest) from rfl,
        Bool.and_eq_true] at h
      rw [runOps, ih h.2]
      exact freeAlloc_footprint mm pid

theorem make_footprint (total : Nat) :
    (MemoryManager.make total).footprint = Multiset.range total := by
  show regions ([(0, total)] ++ ([] : List (Nat × Block)).map (·.2)) = Multiset.range total
  rw [List.map_nil, List.append_nil, regions_singleton, region]
  exact (Multiset.map_congr rfl fun x _ => Nat.zero_add x).trans (Multiset.map_id _)

theorem conservation_of_footprint {mm : MemoryManager}
    (h : mm.footprint = Multiset.range mm.total) :
    mm.freeSpace + mm.allocSum = mm.total := by
  have hc := congrArg Multiset.card h
  rw [Multiset.card_range, footprint_eq, Multiset.card_add, card_regions, card_regions] at hc
  exact hc

/-! ### Preservation of the structural invariant -/

theorem MMInv_make (total : Nat) : MMInv (MemoryManager.make total) := by
  refine ⟨?_, List.pairwise_singleton _ _, ?_, ?_⟩
  · rw [make_footprint]
    exact Multiset.nodup_range total
  · by_cases h : total = 0
    · subst h
      exact Or.inr ⟨rfl, rfl⟩
    · refine Or.inl fun b hb => ?_
      rw [List.mem_singleton.mp hb]
      omega
  · intro b hb
    exact absurd hb (by simp [MemoryManager.make, MemoryManager.allocBlocks])

theorem MMInv_firstFitAllocate {mm : MemoryManager} (h : MMInv mm) {pid size : Nat}
    (hpos : 0 < size) : MMInv ((mm.firstFitAllocate pid size).2) := by
  rcases h with ⟨hnd, hchain, hposf, hposa⟩
  have hndle : ((mm.firstFitAllocate pid size).2).footprint.Nodup :=
    Multiset.nodup_of_le (firstFitAllocate_footprint mm pid size).1 hnd
  rw [MemoryManager.firstFitAllocate] at hndle ⊢
  cases hscan : ffaScan size mm.free with
  | none => exact ⟨hnd, hchain, hposf, hposa⟩
  | some p =>
    obtain ⟨blk, free'⟩ := p
    rw [hscan] at hndle
    have hposf' : PosBlocks mm.free := by
      rcases hposf with hp | ⟨hf, -⟩
      · exact hp
      · exfalso
        rw [hf, ffaScan, if_neg (by omega)] at hscan
        rw [show ffaScan size ([] : List Block) = none from rfl] at hscan
        exact absurd hscan (by simp)
    rcases ffaScan_some_decomp hscan with ⟨pre, s, sz, post, hdec, -, hfit, hblk, hrest⟩
    have hchain0 : FreeChain (pre ++ (s, sz) :: post) := hdec ▸ hchain
    rcases List.pairwise_append.mp hchain0 with ⟨hp, hcpost, hcross⟩
    rcases List.pairwise_cons.mp hcpost with ⟨hs_post, hpost⟩
    have hchain' : FreeChain free' := by
      by_cases he : sz = size
      · rw [if_pos he] at hrest
        subst hrest
        exact List.pairwise_append.mpr
          ⟨hp, hpost, fun a ha b hb => hcross a ha b (List.mem_cons_of_mem _ hb)⟩
      · rw [if_neg he] at hrest
        subst hrest
        refine List.pairwise_append.mpr
          ⟨hp, List.pairwise_cons.mpr ⟨fun c hc => ?_, hpost⟩, fun a ha b hb => ?_⟩
        · have := hs_post c hc
          simp only at this ⊢
          omega
        · rcases List.mem_cons.mp hb with rfl | hb
          · have := hcross a ha (s, sz) (List.mem_cons_self _ _)
            simp only at this ⊢
            omega
          · exact hcross a ha b (List.mem_cons_of_mem _ hb)
    have hpos' : PosBlocks free' := by
      by_cases he : sz = size
      · rw [if_pos he] at hrest
        subst hrest
        intro b hb
        rcases List.mem_append.mp hb with hb | hb
        · exact hposf' b (hdec ▸ List.mem_append.mpr (Or.inl hb))
        · exact hposf' b (hdec ▸ List.mem_append.mpr (Or.inr (List.mem_cons_of_mem _ hb)))
      · rw [if_neg he] at hrest
        subst hrest
        intro b hb
        rcases List.mem_append.mp hb with hb | hb
        · exact hposf' b (hdec ▸ List.mem_append.mpr (Or.inl hb))
        · rcases List.mem_cons.mp hb with rfl | hb
          · simp only
            omega
          · exact hposf' b (hdec ▸ List.mem_append.mpr (Or.inr (List.mem_cons_of_mem _ hb)))
    refine ⟨hndle, hchain', Or.inl hpos', ?_⟩
    intro b hb
    rcases mem_vals_mapSet hb with hb' | rfl
    · exact hposa b hb'
    · rw [hblk]
      exact hpos

theorem MMInv_freeAlloc {mm : MemoryManager} (h : MMInv mm) (pid : Nat) :
    MMInv (mm.freeAlloc pid) := by
  rcases h with ⟨hnd, hchain, hposf, hposa⟩
  have hfp : (mm.freeAlloc pid).footprint = mm.footprint := freeAlloc_footprint mm pid
  rw [MemoryManager.freeAlloc] at hfp ⊢
  cases hget : mapGet pid mm.allocs with
  | none => exact ⟨hnd, hchain, hposf, hposa⟩
  | some blk =>
    rw [hget] at hfp
    have hposf' : PosBlocks mm.free := by
      rcases hposf with hp | ⟨-, ha⟩
      · exact hp
      · exfalso
        rw [ha] at hget
        exact absurd hget (by simp [mapGet])
    have hblkpos : 0 < blk.2 := hposa blk (mapGet_mem_vals hget)
    have hLperm : (sortFree (mm.free ++ [blk])).Perm (mm.free ++ [blk]) := sortFree_perm _
    have hLpos : PosBlocks (sortFree (mm.free ++ [blk])) := by
      intro b hb
      rcases List.mem_append.mp (hLperm.mem_iff.mp hb) with hb | hb
      · exact hposf' b hb
      · rw [List.mem_singleton.mp hb]
        exact hblkpos
    have hsub : regions (mm.free ++ [blk]) ≤ mm.footprint := by
      rcases mapGet_some_decomp hget with ⟨l₁, l₂, hdec, -, -, -⟩
      rw [footprint_eq, MemoryManager.allocBlocks, hdec, regions_vals_decomp,
        regions_append, regions_singleton]
      exact Multiset.le_iff_exists_add.mpr
        ⟨regions (l₁.map (·.2)) + regions (l₂.map (·.2)), by abel⟩
    have hLdisj : RegionsDisjoint (sortFree (mm.free ++ [blk])) := by
      apply nodup_regions_pairwise
      rw [regions_perm hLperm]
      exact Multiset.nodup_of_le hsub hnd
    have hLle : (sortFree (mm.free ++ [blk])).Pairwise (fun a b => a.1 + a.2 ≤ b.1) :=
      chainLe_of_sorted_disjoint (sortFree_sorted _) hLdisj hLpos
    have hchain' : FreeChain (mergeFree (sortFree (mm.free ++ [blk]))) := by
      cases hC : sortFree (mm.free ++ [blk]) with
      | nil => exact List.Pairwise.nil
      | cons b0 rest =>
        rw [mergeFree]
        exact (mergeRun_chain b0 rest (hC ▸ hLle)).1
    have hpos' : PosBlocks (mergeFree (sortFree (mm.free ++ [blk]))) := by
      cases hC : sortFree (mm.free ++ [blk]) with
      | nil =>
        intro b hb
        exact absurd hb (by simp [mergeFree])
      | cons b0 rest =>
        rw [mergeFree]
        have h0 := hLpos b0 (hC ▸ List.mem_cons_self b0 rest)
        exact mergeRun_pos b0 rest h0
          (fun d hd => hLpos d (hC ▸ List.mem_cons_of_mem b0 hd))
    refine ⟨hfp ▸ hnd, hchain', Or.inl hpos', ?_⟩
    intro b hb
    exact hposa b (mem_vals_mapDelete hb)

theorem MMInv_runOps {ops : List MMOp} (hp : posSizes ops = true) :
    ∀ {mm : MemoryManager}, MMInv mm → MMInv (runOps mm ops) := by
  induction ops with
  | nil => intro mm h; exact h
  | cons op rest ih =>
    intro mm h
    cases op with
    | alloc pid size =>
      rw [show posSizes (MMOp.alloc pid size :: rest) =
            (decide (0 < size) && posSizes rest) from rfl, Bool.and_eq_true] at hp
      exact ih hp.2 (MMInv_firstFitAllocate h (of_decide_eq_true hp.1))
    | free pid =>
      rw [show posSizes (MMOp.free pid :: rest) = posSizes rest from rfl] at hp
      exact ih hp (MMInv_freeAlloc h pid)

theorem freshSeq_append_left {l₁ l₂ : List MMOp} :
    ∀ {mm : MemoryManager}, freshSeq mm (l₁ ++ l₂) = true → freshSeq mm l₁ = true := by
  induction l₁ with
  | nil => intro mm _; rfl
  | cons op rest ih =>
    intro mm h
    cases op with
    | alloc pid size =>
      rw [List.cons_append] at h
      rw [show freshSeq mm (MMOp.alloc pid size :: (rest ++ l₂)) =
            ((mapGet pid mm.allocs).isNone &&
              freshSeq (applyOp mm (MMOp.alloc pid size)) (rest ++ l₂)) from rfl,
        Bool.and_eq_true] at h
      rw [show freshSeq mm (MMOp.alloc pid size :: rest) =
            ((mapGet pid mm.allocs).isNone &&
              freshSeq (applyOp mm (MMOp.alloc pid size)) rest) from rfl,
        Bool.and_eq_true]
      exact ⟨h.1, ih h.2⟩
    | free pid =>
      rw [List.cons_append] at h
      rw [show freshSeq mm (MMOp.free pid :: (rest ++ l₂)) =
            (true && freshSeq (applyOp mm (MMOp.free pid)) (rest ++ l₂)) from rfl,
        Bool.and_eq_true] at h
      rw [show freshSeq mm (MMOp.free pid :: rest) =
            (true && freshSeq (applyOp mm (MMOp.free pid)) rest) from rfl,
        Bool.and_eq_true]
      exact ⟨rfl, ih h.2⟩

/-! ### Claim theorems for the memory allocator -/

/-- C3 (counterexample): the claim quantifies over every sequence of
`firstFitAllocate`/`freeAlloc` calls, but calling `firstFitAllocate`
twice with the same pid overwrites the first block in the allocation
map without freeing it, so after `alloc 1 10; alloc 1 10` on capacity
100 the free space (80) plus the allocated sizes (10) is 90, not
100 — conservation fails. -/
theorem C3_counterexample :
    (runOps (MemoryManager.make 100) reuseOps).freeSpace +
      (runOps (MemoryManager.make 100) reuseOps).allocSum ≠
      (runOps (MemoryManager.make 100) reuseOps).total := by
  decide

/-- C3 (amended): for every sequence of `firstFitAllocate` and
`freeAlloc` calls applied to `new MemoryManager(total)` in which every
`firstFitAllocate` call uses a pid with no current allocation, after
each call (i.e. after every prefix of the sequence) the sum of the
free interval sizes plus the sum of the allocated block sizes equals
`total`, and the free intervals and allocated blocks cover pairwise
disjoint regions. -/
theorem C3_conservation (total : Nat) (pre post : List MMOp)
    (h : freshSeq (MemoryManager.make total) (pre ++ post) = true) :
    (runOps (MemoryManager.make total) pre).freeSpace +
        (runOps (MemoryManager.make total) pre).allocSum =
        (runOps (MemoryManager.make total) pre).total ∧
      RegionsDisjoint ((runOps (MemoryManager.make total) pre).free ++
        (runOps (MemoryManager.make total) pre).allocBlocks) := by
  have hfresh : freshSeq (MemoryManager.make total) pre = true := freshSeq_append_left h
  have htot : (runOps (MemoryManager.make total) pre).total = total := by
    have : ∀ (ops : List MMOp) (mm : MemoryManager), (runOps mm ops).total = mm.total := by
      intro ops
      induction ops with
      | nil => intro mm; rfl
      | cons op rest ih =>
        intro mm
        rw [runOps, ih]
        cases op with
        | alloc pid size =>
          show ((mm.firstFitAllocate pid size).2).total = mm.total
          rw [MemoryManager.firstFitAllocate]
          cases hscan : ffaScan size mm.free with
          | none => rfl
          | some p => rfl
        | free pid =>
          show (mm.freeAlloc pid).total = mm.total
          rw [MemoryManager.freeAlloc]
          cases hget : mapGet pid mm.allocs with
          | none => rfl
          | some blk => rfl
    exact this pre _
  have hfp : (runOps (MemoryManager.make total) pre).footprint = Multiset.range total := by
    rw [runOps_footprint_eq hfresh, make_footprint]
  constructor
  · rw [htot]
    have := @conservation_of_footprint (runOps (MemoryManager.make total) pre)
      (by rw [hfp, htot])
    rwa [htot] at this
  · apply nodup_regions_pairwise
    show (regions ((runOps (MemoryManager.make total) pre).free ++
      (runOps (MemoryManager.make total) pre).allocBlocks)).Nodup
    rw [show regions ((runOps (MemoryManager.make total) pre).free ++
        (runOps (MemoryManager.make total) pre).allocBlocks) =
        (runOps (MemoryManager.make total) pre).footprint from rfl, hfp]
    exact Multiset.nodup_range total

/-- Witness for `C3_conservation` at a concrete input: allocate 40
units for pid 1 and free them again on a capacity-100 manager. -/
theorem C3_conservation_witness :
    freshSeq (MemoryManager.make 100) ([MMOp.alloc 1 40, MMOp.free 1] ++ []) = true ∧
      ((runOps (MemoryManager.make 100) [MMOp.alloc 1 40, MMOp.free 1]).freeSpace +
          (runOps (MemoryManager.make 100) [MMOp.alloc 1 40, MMOp.free 1]).allocSum =
          (runOps (MemoryManager.make 100) [MMOp.alloc 1 40, MMOp.free 1]).total ∧
        RegionsDisjoint ((runOps (MemoryManager.make 100) [MMOp.alloc 1 40, MMOp.free 1]).free ++
          (runOps (MemoryManager.make 100) [MMOp.alloc 1 40, MMOp.free 1]).allocBlocks)) :=
  ⟨by decide, C3_conservation 100 [MMOp.alloc 1 40, MMOp.free 1] [] (by decide)⟩

/-- C4 (counterexample): the claim asserts that after every `freeAlloc`
call the free list is sorted and contains no two adjacent intervals,
for every reachable state.  A zero-size `firstFitAllocate` request is
accepted by the scan (`sz >= 0`), and freeing such a block leaves a
`(start, 0)` interval which the merge pass cannot always coalesce:
after `zeroSizeOps` on capacity 11 the free list is
`[(0,10), (3,0), (10,1)]`, where `(0,10)` ends exactly at the start of
`(10,1)`. -/
theorem C4_counterexample :
    ¬ (SortedByStart (runOps (MemoryManager.make 11) zeroSizeOps).free ∧
        NoAdjacent (runOps (MemoryManager.make 11) zeroSizeOps).free) := by
  rw [SortedByStart, NoAdjacent]
  decide

/-- C4 (amended): provided every `firstFitAllocate` call in the
history requested a positive size, after every `freeAlloc` call the
free list is sorted by start address and no two free intervals are
adjacent (`start_i + size_i ≠ start_j` for every pair of distinct
intervals): full coalescing is restored after every release. -/
theorem C4_coalescing (total : Nat) (ops : List MMOp) (pid : Nat)
    (hp : posSizes ops = true) :
    SortedByStart ((runOps (MemoryManager.make total) ops).freeAlloc pid).free ∧
      NoAdjacent ((runOps (MemoryManager.make total) ops).freeAlloc pid).free := by
  have hinv : MMInv ((runOps (MemoryManager.make total) ops).freeAlloc pid) :=
    MMInv_freeAlloc (MMInv_runOps hp (MMInv_make total)) pid
  exact ⟨hinv.2.1.sortedByStart, hinv.2.1.noAdjacent⟩

/-- Witness for `C4_coalescing` at a concrete input: free pid 1 after
two positive allocations on a capacity-100 manager. -/
theorem C4_coalescing_witness :
    posSizes [MMOp.alloc 1 40, MMOp.alloc 2 30] = true ∧
      (SortedByStart ((runOps (MemoryManager.make 100)
          [MMOp.alloc 1 40, MMOp.alloc 2 30]).freeAlloc 1).free ∧
        NoAdjacent ((runOps (MemoryManager.make 100)
          [MMOp.alloc 1 40, MMOp.alloc 2 30]).freeAlloc 1).free) :=
  ⟨by decide, C4_coalescing 100 [MMOp.alloc 1 40, MMOp.alloc 2 30] 1 (by decide)⟩

/-- C5: `firstFitAllocate(pid, size)` selects the first interval of
the free list (scanned in list order, which is ascending start order
for the sorted free lists the manager maintains) whose size is at
least `size`: on a fit it returns the block at the interval's start,
removing the interval on an exact fit and shrinking it from the front
otherwise; when no interval is large enough it returns `null` and
leaves the free list and the allocation map unchanged.  The spec's
scenario on capacity 100 (allocate 40, allocate 50, fail 20, free the
40-block, retry 20) ends with allocations `{P2:(40,50), P3:(0,20)}`,
free list `[(20,20),(90,10)]` and `freeSpace` 30. -/
theorem C5_first_fit :
    (∀ (mm : MemoryManager) (pid size : Nat) (pre : List Block) (start sz : Nat)
       (post : List Block),
       mm.free = pre ++ (start, sz) :: post →
       (∀ b ∈ pre, b.2 < size) →
       size ≤ sz →
       mm.firstFitAllocate pid size =
         (some (start, size),
          { mm with
            free := pre ++ (if sz = size then post else (start + size, sz - size) :: post),
            allocs := mapSet pid (start, size) mm.allocs })) ∧
    (∀ (mm : MemoryManager) (pid size : Nat),
       (∀ b ∈ mm.free, b.2 < size) →
       mm.firstFitAllocate pid size = (none, mm)) ∧
    ((runOps (MemoryManager.make 100)
        [MMOp.alloc 1 40, MMOp.alloc 2 50]).firstFitAllocate 3 20).1 = none ∧
    runOps (MemoryManager.make 100) scenarioOps =
      { total := 100, free := [(20, 20), (90, 10)],
        allocs := [(2, (40, 50)), (3, (0, 20))] } ∧
    (runOps (MemoryManager.make 100) scenarioOps).freeSpace = 30 := by
  refine ⟨?_, ?_, by decide, by decide, by decide⟩
  · intro mm pid size pre start sz post hfree hpre hfit
    rw [MemoryManager.firstFitAllocate, hfree, ffaScan_of_decomp pre start sz post hpre hfit]
  · intro mm pid size hsmall
    rw [MemoryManager.firstFitAllocate, ffaScan_eq_none.mpr hsmall]

/-- Witness for `C5_first_fit` at a concrete input: a first-fit hit on
the second interval of `[(0,10), (20,50)]` for a request of 30, and a
first-fit miss for a request of 60. -/
theorem C5_first_fit_witness :
    ((20, 50) = ((20 : Nat), (50 : Nat)) ∧ (30 : Nat) ≤ 50) ∧
      ({ total := 100, free := [(0, 10), (20, 50)], allocs := [] } :
        MemoryManager).firstFitAllocate 7 30 =
        (some (20, 30), { total := 100, free := [(0, 10), (50, 20)], allocs := [(7, (20, 30))] }) ∧
      ({ total := 100, free := [(0, 10), (20, 50)], allocs := [] } :
        MemoryManager).firstFitAllocate 7 60 =
        (none, { total := 100, free := [(0, 10), (20, 50)], allocs := [] }) := by
  refine ⟨⟨rfl, by decide⟩, ?_, ?_⟩
  · have := C5_first_fit.1 { total := 100, free := [(0, 10), (20, 50)], allocs := [] }
      7 30 [(0, 10)] 20 50 [] rfl (by decide) (by decide)
    rw [this]
    decide
  · exact C5_first_fit.2.1 { total := 100, free := [(0, 10), (20, 50)], allocs := [] }
      7 60 (by decide)

/-! ### Claim theorems for the tick engine -/

theorem mapGet_mapDelete_self {β : Type} {k : Nat} {l : List (Nat × β)}
    (h : (l.map (·.1)).Nodup) : mapGet k (mapDelete k l) = none := by
  induction l with
  | nil => rfl
  | cons p l ih =>
    obtain ⟨k₁, v₁⟩ := p
    rw [List.map_cons, List.nodup_cons] at h
    by_cases hk : k₁ = k
    · subst hk
      rw [mapDelete, if_pos rfl, mapGet_eq_none_iff]
      exact h.1
    · rw [mapDelete, if_neg hk, mapGet, if_neg hk]
      exact ih h.2

/-- C10: for a pid with no entry in the allocation map, `freeAlloc` is
a no-op that leaves the whole manager (free list and allocation map)
unchanged; consequently — for the duplicate-free key lists a JS `Map`
produces — freeing the same pid twice is the same as freeing it once,
so the second release performed by `terminateProcess` after
`freeMemoryAndAwaken` already freed the block leaves the allocator
state unchanged. -/
theorem C10_free_noop (mm : MemoryManager) (pid : Nat) :
    (mapGet pid mm.allocs = none → mm.freeAlloc pid = mm) ∧
      ((mm.allocs.map (·.1)).Nodup →
        (mm.freeAlloc pid).freeAlloc pid = mm.freeAlloc pid) := by
  constructor
  · intro h
    rw [MemoryManager.freeAlloc, h]
  · intro hnd
    cases hget : mapGet pid mm.allocs with
    | none =>
      have h1 : mm.freeAlloc pid = mm := by rw [MemoryManager.freeAlloc, hget]
      rw [h1]
      exact h1
    | some blk =>
      have h2 : mapGet pid (mm.freeAlloc pid).allocs = none := by
        rw [MemoryManager.freeAlloc, hget]
        exact mapGet_mapDelete_self hnd
      conv => lhs; rw [MemoryManager.freeAlloc, h2]

/-- Witness for `C10_free_noop`: pid 5 has no allocation in a manager
holding one block for pid 2, and its key list has no duplicates. -/
theorem C10_free_noop_witness :
    (mapGet 5 ([(2, ((0, 30) : Block))]) = none ∧
        (([(2, ((0, 30) : Block))]).map (·.1)).Nodup) ∧
      ({ total := 100, free := [(30, 70)], allocs := [(2, (0, 30))] } :
          MemoryManager).freeAlloc 5 =
        { total := 100, free := [(30, 70)], allocs := [(2, (0, 30))] } ∧
      (({ total := 100, free := [(30, 70)], allocs := [(2, (0, 30))] } :
          MemoryManager).freeAlloc 2).freeAlloc 2 =
        ({ total := 100, free := [(30, 70)], allocs := [(2, (0, 30))] } :
          MemoryManager).freeAlloc 2 :=
  ⟨⟨by decide, by decide⟩,
   (C10_free_noop { total := 100, free := [(30, 70)], allocs := [(2, (0, 30))] } 5).1 (by decide),
   (C10_free_noop { total := 100, free := [(30, 70)], allocs := [(2, (0, 30))] } 2).2 (by decide)⟩

/-- C1 (code evaluated at the failing input): in a state whose
memory-wait queue holds a process still present in the process table,
`tick` does not complete — the per-tick memory-retry phase calls the
nonexistent method `memoryManager.alloc` and throws a `TypeError`.
This contradicts the claim that such a tick completes without
faulting. -/
theorem C1_live_waiter_fault :
    1 ∈ cexState1.waitingForMem ∧ (mapGet 1 cexState1.processes).isSome = true ∧
      tick CONFIG cexState1 quietInput =
        Except.error "TypeError: memoryManager.alloc is not a function" :=
  ⟨by decide, rfl, rfl⟩

/-- C9 (code evaluated at the failing input): `processMemoryQueue` —
the memory-wait retry performed after a termination — reads `p.pid` on
a queue entry whose process no longer exists and throws a `TypeError`
instead of silently dropping the stale entry. -/
theorem C9_stale_entry_fault :
    7 ∈ cexState9.waitingForMem ∧ mapGet 7 cexState9.processes = none ∧
      processMemoryQueue cexState9 =
        Except.error "TypeError: Cannot read properties of undefined (reading pid)" :=
  ⟨by decide, rfl, rfl⟩

/-- C2 (counterexample): the per-tick memory-retry phase does not
reattempt the queue in FIFO order stopping at the first unsatisfiable
entry (the behaviour described by the spec and embodied by
`specFifoMemRetry`): on a state with two live waiters it throws a
`TypeError` instead — the FIFO retry would stop at the unsatisfiable
head and leave the state unchanged. -/
theorem C2_counterexample :
    tickMemRetryPhase cexState2 ≠ Except.ok (specFifoMemRetry cexState2) ∧
      tickMemRetryPhase cexState2 =
        Except.error "TypeError: memoryManager.alloc is not a function" ∧
      specFifoMemRetry cexState2 = cexState2 := by
  refine ⟨?_, rfl, rfl⟩
  intro h
  exact Except.noConfusion
    (show Except.error "TypeError: memoryManager.alloc is not a function" =
      Except.ok (specFifoMemRetry cexState2) from h)

/-- C6 (counterexample): on the executed tick that preempts process 1
(quantum exhausted, ready queue non-empty), the process is indeed
moved to `Listo` and appended to the ready-queue tail, but its
quantum is reset to `TIME_QUANTUM` immediately at preemption time —
not left at 0 until its next scheduling as the claim states. -/
theorem C6_counterexample :
    ((tick CONFIG cexState6 quietInput).toOption.bind
        fun s => (mapGet 1 s.processes).map (·.quantumLeft)) = some CONFIG.timeQuantum ∧
      ((tick CONFIG cexState6 quietInput).toOption.bind
        fun s => (mapGet 1 s.processes).map (·.state)) = some PState.listo ∧
      ((tick CONFIG cexState6 quietInput).toOption.map (·.readyQueue)) = some [2, 1] ∧
      CONFIG.timeQuantum ≠ 0 :=
  ⟨rfl, rfl, rfl, by decide⟩

/-- C7 (counterexample): the tick engine performs a Running→Ready
preemption (process 3 ends the tick in `Listo` on the ready queue)
without incrementing `contextSwitches`: the counter stays at 0 where
the claim requires it to become 1. -/
theorem C7_counterexample :
    ((tick CONFIG cexState7 quietInput).toOption.bind
        fun s => (mapGet 3 s.processes).map (·.state)) = some PState.listo ∧
      ((tick CONFIG cexState7 quietInput).toOption.map (·.contextSwitches)) = some 0 ∧
      cexState7.contextSwitches = 0 ∧ (0 : Nat) ≠ 0 + 1 :=
  ⟨rfl, rfl, rfl, by decide⟩

/-- C8: manual process creation with a memory requirement or CPU burst
outside the configured bounds is rejected before any mutation — the
state is returned unchanged, so no process, counter, queue or
allocator change occurs; with in-range inputs it behaves identically
to an automatically spawned process with the same sampled values
(immediate allocation attempt, then `Listo` or `EsperandoMem`). -/
theorem C8_manual_validation (cfg : Config) (s : SimState) (memReq cpuBurst : Int) :
    ((memReq < cfg.minProcMem ∨ memReq > cfg.maxProcMem ∨
        cpuBurst < cfg.minCpuBurst ∨ cpuBurst > cfg.maxCpuBurst) →
      createManualProcess cfg s memReq cpuBurst = s) ∧
    (cfg.minProcMem ≤ memReq → memReq ≤ cfg.maxProcMem →
      cfg.minCpuBurst ≤ cpuBurst → cpuBurst ≤ cfg.maxCpuBurst →
      createManualProcess cfg s memReq cpuBurst =
        maybeCreateRandomProcess cfg s (some (memReq.toNat, cpuBurst))) := by
  constructor
  · intro h
    rw [createManualProcess]
    by_cases h1 : memReq < cfg.minProcMem ∨ memReq > cfg.maxProcMem
    · rw [if_pos h1]
    · rw [if_neg h1]
      have h2 : cpuBurst < cfg.minCpuBurst ∨ cpuBurst > cfg.maxCpuBurst := by
        rcases h with h | h | h | h
        · exact absurd (Or.inl h) h1
        · exact absurd (Or.inr h) h1
        · exact Or.inl h
        · exact Or.inr h
      rw [if_pos h2]
  · intro hm1 hm2 hc1 hc2
    rw [createManualProcess, if_neg (not_or.mpr ⟨not_lt.mpr hm1, not_lt.mpr hm2⟩),
      if_neg (not_or.mpr ⟨not_lt.mpr hc1, not_lt.mpr hc2⟩)]
    rfl

/-- Witness for `C8_manual_validation`: a memory requirement of 10 is
rejected without mutation, and in-range inputs (100, 5) produce the
same state as an automatic spawn with those values. -/
theorem C8_manual_validation_witness :
    ((10 : Int) < CONFIG.minProcMem ∧
        createManualProcess CONFIG cexState9 10 5 = cexState9) ∧
      (CONFIG.minProcMem ≤ (100 : Int) ∧ (100 : Int) ≤ CONFIG.maxProcMem ∧
        CONFIG.minCpuBurst ≤ (5 : Int) ∧ (5 : Int) ≤ CONFIG.maxCpuBurst ∧
        createManualProcess CONFIG cexState9 100 5 =
          maybeCreateRandomProcess CONFIG cexState9 (some ((100 : Int).toNat, 5))) :=
  ⟨⟨by decide, (C8_manual_validation CONFIG cexState9 10 5).1 (Or.inl (by decide))⟩,
   by decide, by decide, by decide, by decide,
   (C8_manual_validation CONFIG cexState9 100 5).2
     (by decide) (by decide) (by decide) (by decide)⟩

theorem tryAllocateAndEnqueue_contextSwitches (s : SimState) (p : Proc) :
    (tryAllocateAndEnqueue s p).contextSwitches = s.contextSwitches := by
  rw [tryAllocateAndEnqueue]
  rcases h : s.mem.firstFitAllocate p.pid p.memReq with ⟨res, mem'⟩
  cases res <;> rfl

theorem maybeCreateRandomProcess_contextSwitches (cfg : Config) (s : SimState)
    (spawn : Option (Nat × Int)) :
    (maybeCreateRandomProcess cfg s spawn).contextSwitches = s.contextSwitches := by
  cases spawn with
  | none => rfl
  | some p =>
    obtain ⟨memReq, cpuBurst⟩ := p
    rw [maybeCreateRandomProcess, tryAllocateAndEnqueue_contextSwitches]

theorem tickSpawnIoPhase_contextSwitches (cfg : Config) (s : SimState) (inp : TickInput) :
    (tickSpawnIoPhase cfg s inp).contextSwitches = s.contextSwitches := by
  rw [tickSpawnIoPhase]
  exact maybeCreateRandomProcess_contextSwitches cfg _ inp.spawn

theorem schedule_contextSwitches {cfg : Config} {s s' : SimState}
    (h : schedule cfg s = Except.ok s') : s'.contextSwitches = s.contextSwitches := by
  rw [schedule] at h
  repeat' split at h
  all_goals first
    | exact Except.noConfusion h
    | rw [← Except.ok.inj h]

theorem awakenLoop_contextSwitches (t : List Nat) :
    ∀ s : SimState, (awakenLoop t s).contextSwitches = s.contextSwitches := by
  induction t with
  | nil => intro s; rfl
  | cons wpid rest ih =>
    intro s
    rw [awakenLoop]
    split
    · rw [ih]
    · split
      · rw [ih]
      · rfl

theorem freeMemoryAndAwaken_contextSwitches (s : SimState) (pid : Nat) :
    (freeMemoryAndAwaken s pid).contextSwitches = s.contextSwitches := by
  rw [freeMemoryAndAwaken, awakenLoop_contextSwitches]

theorem processMemoryQueue_contextSwitches {s s' : SimState}
    (h : processMemoryQueue s = Except.ok s') :
    s'.contextSwitches = s.contextSwitches := by
  rw [processMemoryQueue] at h
  cases hl : pmqLoop s.waitingForMem s.processes with
  | error e =>
    rw [hl] at h
    exact Except.noConfusion h
  | ok w' =>
    rw [hl] at h
    rw [← Except.ok.inj h]

theorem terminateProcess_contextSwitches {s s' : SimState} {pid : Nat}
    (h : terminateProcess s pid = Except.ok s') :
    s'.contextSwitches = s.contextSwitches := by
  rw [terminateProcess] at h
  split at h
  · exact Except.noConfusion h
  · rw [processMemoryQueue_contextSwitches h]

theorem tickExecute_contextSwitches {cfg : Config} {inp : TickInput} {s s' : SimState}
    (h : tickExecute cfg inp s = Except.ok s') :
    s'.contextSwitches = s.contextSwitches := by
  rw [tickExecute] at h
  dsimp only at h
  repeat' split at h
  all_goals first
    | exact Except.noConfusion h
    | rw [← Except.ok.inj h]
    | (rw [terminateProcess_contextSwitches h]
       dsimp only
       rw [freeMemoryAndAwaken_contextSwitches])

theorem tickMemRetryPhase_contextSwitches {s s' : SimState}
    (h : tickMemRetryPhase s = Except.ok s') :
    s'.contextSwitches = s.contextSwitches := by
  rw [tickMemRetryPhase] at h
  cases hl : tickMemRetryLoop s.waitingForMem s.processes with
  | error e =>
    rw [hl] at h
    exact Except.noConfusion h
  | ok w' =>
    rw [hl] at h
    rw [← Except.ok.inj h]

/-- C7 (amended): the tick engine never changes `contextSwitches` — a
completed tick, including its preemption and I/O-blocking branches,
leaves the counter exactly as it was.  (The only code that increments
it is the separate `executeCurrentProcess` helper, which `tick` never
invokes.) -/
theorem C7_no_increment {cfg : Config} {s s' : SimState} {inp : TickInput}
    (h : tick cfg s inp = Except.ok s') :
    s'.contextSwitches = s.contextSwitches := by
  rw [tick] at h
  split at h
  · exact Except.noConfusion h
  · rename_i s4 hs
    split at h
    · exact Except.noConfusion h
    · rename_i s5 he
      rw [tickMemRetryPhase_contextSwitches h, tickExecute_contextSwitches he,
        schedule_contextSwitches hs, tickSpawnIoPhase_contextSwitches]

/-- Witness for `C7_no_increment`: the concrete preemption tick from
`cexState7` completes and leaves `contextSwitches` unchanged. -/
theorem C7_no_increment_witness :
    ∃ s', tick CONFIG cexState7 quietInput = Except.ok s' ∧
      s'.contextSwitches = cexState7.contextSwitches := by
  have h : tick CONFIG cexState7 quietInput =
      Except.ok ((tick CONFIG cexState7 quietInput).toOption.getD cexState7) := by rfl
  exact ⟨_, h, C7_no_increment h⟩

/-- C6 (amended): on an executed tick where the running process's
quantum reaches 0: if the ready queue is non-empty the process is
preempted — its state becomes `Listo`, it is appended to the
ready-queue tail — and its quantum is reset immediately at preemption
time (and reset again at its next scheduling); if the ready queue is
empty its quantum is refreshed in place and it keeps running without a
context switch. -/
theorem C6_preemption (cfg : Config) (s : SimState) (inp : TickInput) (pid : Nat) (p : Proc)
    (hspawn : inp.spawn = none) (hio : inp.ioBlock = false)
    (hioq : s.ioQueue = []) (hwait : s.waitingForMem = [])
    (hrun : s.currentRunning = some pid)
    (hget : mapGet pid s.processes = some p)
    (hq : p.quantumLeft = 1) (hrem : 1 < p.remainingCpu) :
    (∀ q qs, s.readyQueue = q :: qs →
      ∃ s', tick cfg s inp = Except.ok s' ∧
        mapGet pid s'.processes =
          some { p with
                 remainingCpu := p.remainingCpu - 1,
                 state := PState.listo,
                 quantumLeft := cfg.timeQuantum } ∧
        s'.readyQueue = s.readyQueue ++ [pid] ∧
        s'.currentRunning = none) ∧
    (s.readyQueue = [] →
      ∃ s', tick cfg s inp = Except.ok s' ∧
        mapGet pid s'.processes =
          some { p with
                 remainingCpu := p.remainingCpu - 1,
                 quantumLeft := cfg.timeQuantum } ∧
        s'.currentRunning = some pid) := by
  have h3 : tickSpawnIoPhase cfg s inp =
      { s with
        tickCount := s.tickCount + 1,
        ioQueue := [] } := by
    rw [tickSpawnIoPhase, hspawn]
    dsimp only [maybeCreateRandomProcess]
    rw [show ({ s with tickCount := s.tickCount + 1 } : SimState).ioQueue = s.ioQueue from rfl,
      hioq]
    rfl
  constructor
  · intro q qs hready
    have hsched : schedule cfg
        ({ s with
           tickCount := s.tickCount + 1,
           ioQueue := [] } : SimState) =
        Except.ok
          { s with
            tickCount := s.tickCount + 1,
            ioQueue := [] } := by
      rw [schedule]
      try dsimp only
      rw [hrun]
      try dsimp only
      rw [hready]
      rw [if_pos (by simp)]
    have hexec : tickExecute cfg inp
        ({ s with
           tickCount := s.tickCount + 1,
           ioQueue := [] } : SimState) =
        Except.ok
          { s with
            tickCount := s.tickCount + 1,
            ioQueue := [],
            processes := mapSet pid
              { p with
                remainingCpu := p.remainingCpu - 1,
                state := PState.listo,
                quantumLeft := cfg.timeQuantum }
              (mapSet pid
                { p with
                  remainingCpu := p.remainingCpu - 1,
                  quantumLeft := p.quantumLeft - 1 }
                s.processes),
            readyQueue := s.readyQueue ++ [pid],
            currentRunning := none } := by
      rw [tickExecute]
      try dsimp only
      rw [hrun]
      try dsimp only
      rw [hget]
      try dsimp only
      rw [hio]
      rw [if_neg (by simp)]
      try dsimp only
      rw [if_neg (by omega)]
      rw [if_pos (by rw [hq, hready]; exact ⟨by omega, by simp⟩)]
    have htick : tick cfg s inp =
        Except.ok
          { s with
            tickCount := s.tickCount + 1,
            ioQueue := [],
            waitingForMem := [],
            processes := mapSet pid
              { p with
                remainingCpu := p.remainingCpu - 1,
                state := PState.listo,
                quantumLeft := cfg.timeQuantum }
              (mapSet pid
                { p with
                  remainingCpu := p.remainingCpu - 1,
                  quantumLeft := p.quantumLeft - 1 }
                s.processes),
            readyQueue := s.readyQueue ++ [pid],
            currentRunning := none } := by
      rw [tick, h3, hsched]
      try dsimp only
      rw [hexec]
      try dsimp only
      rw [tickMemRetryPhase]
      try dsimp only
      rw [hwait]
      dsimp only [tickMemRetryLoop]
    exact ⟨_, htick, mapGet_mapSet_self pid _ _, rfl, rfl⟩
  · intro hready0
    have hsched : schedule cfg
        ({ s with
           tickCount := s.tickCount + 1,
           ioQueue := [] } : SimState) =
        Except.ok
          { s with
            tickCount := s.tickCount + 1,
            ioQueue := [],
            processes := mapSet pid { p with quantumLeft := cfg.timeQuantum } s.processes } := by
      rw [schedule]
      try dsimp only
      rw [hrun]
      try dsimp only
      rw [hready0]
      rw [if_neg (by simp)]
      rw [hget]
    have hexec : tickExecute cfg inp
        ({ s with
           tickCount := s.tickCount + 1,
           ioQueue := [],
           processes := mapSet pid { p with quantumLeft := cfg.timeQuantum } s.processes } :
          SimState) =
        Except.ok
          { s with
            tickCount := s.tickCount + 1,
            ioQueue := [],
            processes := mapSet pid
              { p with
                remainingCpu := p.remainingCpu - 1,
                quantumLeft := cfg.timeQuantum }
              (mapSet pid
                { p with
                  remainingCpu := p.remainingCpu - 1,
                  quantumLeft := cfg.timeQuantum - 1 }
                (mapSet pid { p with quantumLeft := cfg.timeQuantum } s.processes)) } := by
      rw [tickExecute]
      try dsimp only
      rw [hrun]
      try dsimp only
      rw [mapGet_mapSet_self pid { p with quantumLeft := cfg.timeQuantum } s.processes]
      try dsimp only
      rw [hio]
      rw [if_neg (by simp)]
      try dsimp only
      rw [if_neg (by omega)]
      rw [if_neg (by rw [hready0]; rintro ⟨-, hlen⟩; simp at hlen)]
      rw [if_pos (by rw [hready0]; rfl)]
    have htick : tick cfg s inp =
        Except.ok
          { s with
            tickCount := s.tickCount + 1,
            ioQueue := [],
            waitingForMem := [],
            processes := mapSet pid
              { p with
                remainingCpu := p.remainingCpu - 1,
                quantumLeft := cfg.timeQuantum }
              (mapSet pid
                { p with
                  remainingCpu := p.remainingCpu - 1,
                  quantumLeft := cfg.timeQuantum - 1 }
                (mapSet pid { p with quantumLeft := cfg.timeQuantum } s.processes)) } := by
      rw [tick, h3, hsched]
      try dsimp only
      rw [hexec]
      try dsimp only
      rw [tickMemRetryPhase]
      try dsimp only
      rw [hwait]
      dsimp only [tickMemRetryLoop]
    exact ⟨_, htick, mapGet_mapSet_self pid _ _, hrun⟩

/-- Witness for `C6_preemption`: the concrete preemption tick from
`cexState6` (process 1 running with one quantum tick left, process 2
ready). -/
theorem C6_preemption_witness :
    (mkProc 1 100 5 PState.ejecutando 1 (MemBlockVal.blk (0, 100))).quantumLeft = 1 ∧
      (1 : Int) < (mkProc 1 100 5 PState.ejecutando 1 (MemBlockVal.blk (0, 100))).remainingCpu ∧
      ∃ s', tick CONFIG cexState6 quietInput = Except.ok s' ∧
        mapGet 1 s'.processes =
          some { mkProc 1 100 5 PState.ejecutando 1 (MemBlockVal.blk (0, 100)) with
                 remainingCpu :=
                   (mkProc 1 100 5 PState.ejecutando 1 (MemBlockVal.blk (0, 100))).remainingCpu - 1,
                 state := PState.listo,
                 quantumLeft := CONFIG.timeQuantum } ∧
        s'.readyQueue = cexState6.readyQueue ++ [1] ∧
        s'.currentRunning = none :=
  ⟨rfl, by decide,
    (C6_preemption CONFIG cexState6 quietInput 1
        (mkProc 1 100 5 PState.ejecutando 1 (MemBlockVal.blk (0, 100)))
        rfl rfl rfl rfl rfl rfl rfl (by decide)).1 2 [] rfl⟩

theorem awakenLoop_waiting_sublist (t : List Nat) :
    ∀ s : SimState, (awakenLoop t s).waitingForMem.Sublist s.waitingForMem := by
  induction t with
  | nil => intro s; exact List.Sublist.refl _
  | cons wpid rest ih =>
    intro s
    rw [awakenLoop]
    split
    · exact (ih _).trans (List.erase_sublist _ _)
    · split
      · exact (ih _).trans (List.erase_sublist _ _)
      · exact List.Sublist.refl _

theorem awakenLoop_cons_none {x : Nat} {rest : List Nat} {s : SimState}
    (hx : mapGet x s.processes = none) :
    awakenLoop (x :: rest) s =
      awakenLoop rest { s with waitingForMem := s.waitingForMem.erase x } := by
  rw [awakenLoop, hx]

theorem awakenLoop_cons_granted {x : Nat} {rest : List Nat} {s : SimState} {p : Proc}
    {blk : Block} {mem' : MemoryManager}
    (hx : mapGet x s.processes = some p)
    (ha : s.mem.firstFitAllocate x p.memReq = (some blk, mem')) :
    awakenLoop (x :: rest) s =
      awakenLoop rest
        { s with
          mem := mem',
          processes := mapSet x
            { p with memBlock := MemBlockVal.blk blk, state := PState.listo } s.processes,
          waitingForMem := s.waitingForMem.erase x,
          readyQueue := s.readyQueue ++ [x] } := by
  rw [awakenLoop, hx]
  dsimp only
  rw [ha]

theorem awakenLoop_cons_break {x : Nat} {rest : List Nat} {s : SimState} {p : Proc}
    {mem₀ : MemoryManager}
    (hx : mapGet x s.processes = some p)
    (ha : s.mem.firstFitAllocate x p.memReq = (none, mem₀)) :
    awakenLoop (x :: rest) s = s := by
  rw [awakenLoop, hx]
  dsimp only
  rw [ha]

theorem awakenLoop_fifo :
    ∀ (t : List Nat) (st : SimState) (a b : Nat) (l₁ l₂ l₃ : List Nat),
      st.waitingForMem = t →
      t = l₁ ++ a :: l₂ ++ b :: l₃ →
      t.Nodup →
      (mapGet a st.processes).isSome = true →
      (mapGet b st.processes).isSome = true →
      b ∉ (awakenLoop t st).waitingForMem →
      a ∉ (awakenLoop t st).waitingForMem := by
  intro t
  induction t with
  | nil =>
    intro st a b l₁ l₂ l₃ hw hdec
    exact absurd hdec (by cases l₁ <;> simp)
  | cons x rest ih =>
    intro st a b l₁ l₂ l₃ hw hdec hnd ha hb hbout
    have hxrest : x ∉ rest := (List.nodup_cons.mp hnd).1
    have hndrest : rest.Nodup := (List.nodup_cons.mp hnd).2
    have herase : st.waitingForMem.erase x = rest := by
      rw [hw, List.erase_cons_head]
    cases l₁ with
    | nil =>
      rw [List.nil_append] at hdec
      injection hdec with hxa hrest
      subst hxa
      rcases Option.isSome_iff_exists.mp ha with ⟨p, hp⟩
      rcases hallocres : st.mem.firstFitAllocate x p.memReq with ⟨res, mem'⟩
      cases res with
      | some blk =>
        rw [awakenLoop_cons_granted hp hallocres] at hbout ⊢
        intro hmem
        have h2 : x ∈ st.waitingForMem.erase x :=
          (awakenLoop_waiting_sublist rest _).subset hmem
        rw [herase] at h2
        exact hxrest h2
      | none =>
        rw [awakenLoop_cons_break hp hallocres] at hbout
        exact absurd (by rw [hw, hrest]; simp : b ∈ st.waitingForMem) hbout
    | cons y l₁' =>
      rw [List.cons_append] at hdec
      injection hdec with hxy hrest
      subst hxy
      have hain : a ∈ rest := by rw [hrest]; simp
      have hbin : b ∈ rest := by rw [hrest]; simp
      have hax : a ≠ x := fun h => hxrest (h ▸ hain)
      have hbx : b ≠ x := fun h => hxrest (h ▸ hbin)
      cases hx : mapGet x st.processes with
      | none =>
        rw [awakenLoop_cons_none hx] at hbout ⊢
        exact ih _ a b l₁' l₂ l₃ herase hrest hndrest ha hb hbout
      | some p =>
        rcases hallocres : st.mem.firstFitAllocate x p.memReq with ⟨res, mem'⟩
        cases res with
        | some blk =>
          rw [awakenLoop_cons_granted hx hallocres] at hbout ⊢
          refine ih _ a b l₁' l₂ l₃ herase hrest hndrest ?_ ?_ hbout
          · show (mapGet a (mapSet x _ st.processes)).isSome = true
            rw [mapGet_mapSet_ne (fun h => hax h.symm)]
            exact ha
          · show (mapGet b (mapSet x _ st.processes)).isSome = true
            rw [mapGet_mapSet_ne (fun h => hbx h.symm)]
            exact hb
        | none =>
          rw [awakenLoop_cons_break hx hallocres] at hbout
          exact absurd (by rw [hw, hrest]; simp : b ∈ st.waitingForMem) hbout

/-- C2 (amended): only the retry inside `freeMemoryAndAwaken` (run
when a termination frees memory, before `terminateProcess`) reattempts
the `WaitingForMemory` queue in FIFO order stopping at the first
unsatisfiable entry: a later-arriving live waiter is never granted
memory (removed from the queue) while an earlier-arriving live waiter
remains unsatisfied.  (The per-tick memory-retry phase and the retry
inside `terminateProcess` instead iterate from the tail and fault on
the first live entry they reach, because they call the nonexistent
`memoryManager.alloc`.) -/
theorem C2_fifo_awaken (s : SimState) (pid a b : Nat) (l₁ l₂ l₃ : List Nat)
    (hdec : s.waitingForMem = l₁ ++ a :: l₂ ++ b :: l₃)
    (hnd : s.waitingForMem.Nodup)
    (ha : (mapGet a s.processes).isSome = true)
    (hb : (mapGet b s.processes).isSome = true)
    (hbout : b ∉ (freeMemoryAndAwaken s pid).waitingForMem) :
    a ∉ (freeMemoryAndAwaken s pid).waitingForMem := by
  rw [freeMemoryAndAwaken] at hbout ⊢
  exact awakenLoop_fifo s.waitingForMem { s with mem := s.mem.freeAlloc pid } a b l₁ l₂ l₃
    rfl hdec hnd ha hb hbout

/-- Witness for `C2_fifo_awaken`: in `witState2`, freeing pid 2's
block lets both waiters 5 and 6 be satisfied in order; waiter 6 (the
later arrival) leaves the queue, and the theorem concludes the earlier
waiter 5 left it too. -/
theorem C2_fifo_awaken_witness :
    (witState2.waitingForMem = [] ++ 5 :: [] ++ 6 :: [] ∧ witState2.waitingForMem.Nodup ∧
      (mapGet 5 witState2.processes).isSome = true ∧
      (mapGet 6 witState2.processes).isSome = true ∧
      6 ∉ (freeMemoryAndAwaken witState2 2).waitingForMem) ∧
      5 ∉ (freeMemoryAndAwaken witState2 2).waitingForMem :=
  ⟨⟨rfl, by decide, rfl, rfl, by decide⟩,
    C2_fifo_awaken witState2 2 5 6 [] [] [] rfl (by decide) rfl rfl (by decide)⟩
